import Mathlib

/-!
Verification development for the shapeOf schema-validation library
(`src/index.js`).  The JavaScript source is shallowly embedded: JS values
become the inductive `JSVal`, schema nodes become `Schema`, the recursive
evaluation engine `_shouldBe` becomes the fuel-indexed function
`shouldBeRun`, and the serialization codec (`shapeOf.serialize` /
`shapeOf.deserialize`) becomes `shapeOf_serialize` / `shapeOf_deserialize`
over a descriptor type `Desc`.  JS exceptions are modelled with `Except`;
the JS `undefined` "absent" signal is modelled with `Option`.

Modelling notes, applying globally:
  * JS numbers are modelled as rationals (`ℚ`).  No claim under study
    depends on floating-point rounding, infinities or NaN.
  * JS `RegExp.prototype.test` is not given semantics; every definition
    that needs it takes an oracle `rt : RegexTest` as a parameter and the
    theorems quantify over the oracle, so nothing proved depends on how
    regular expressions match.
  * The failure log produced by `_validationLog` only feeds the
    `returnsResults` output and its text is never at issue in a claim, so
    the log channel is not modelled; callbacks registered through
    `onValid` / `onInvalid` / `onComplete` are modelled as inert numeric
    identifiers whose invocations are recorded as an `Event` trace.
  * In-place mutation is modelled by value passing: every evaluation
    returns the (possibly mutated) value alongside the verdict.
-/

/-! ## JavaScript values -/

/-- Scalar JS values: the four primitive runtime types handled by the
library (string, number, boolean, null). -/
inductive Prim where
  | str (s : String)
  | num (q : ℚ)
  | bool (b : Bool)
  | null

mutual
/-- JSON-like JS runtime values: primitives, arrays, plain objects. -/
inductive JSVal where
  | prim (p : Prim)
  | arr (elems : JSList)
  | obj (fields : JSFields)
/-- A list of JS values (spine of a JS array). -/
inductive JSList where
  | nil
  | cons (hd : JSVal) (tl : JSList)
/-- Ordered own enumerable fields of a JS object (insertion order). -/
inductive JSFields where
  | nil
  | cons (key : String) (val : JSVal) (tl : JSFields)
end

/-- Equality test for scalars, mirroring JS strict equality `===` on
primitives (value equality; `NaN` is outside the model). -/
def primEq : Prim → Prim → Bool
  | .str a, .str b => a == b
  | .num a, .num b => a == b
  | .bool a, .bool b => a == b
  | .null, .null => true
  | _, _ => false

mutual
/-- Structural value equality on JS values.  JS `===` on two object
references is reference equality; in this pure embedding it is
approximated by value equality, which only ever decides whether a
mutation write-back happens (writing back an equal value is
unobservable). -/
def jsValEq : JSVal → JSVal → Bool
  | .prim a, .prim b => primEq a b
  | .arr a, .arr b => jsListEq a b
  | .obj a, .obj b => jsFieldsEq a b
  | _, _ => false
/-- Structural equality on JS arrays. -/
def jsListEq : JSList → JSList → Bool
  | .nil, .nil => true
  | .cons a as, .cons b bs => jsValEq a b && jsListEq as bs
  | _, _ => false
/-- Structural equality on JS object fields. -/
def jsFieldsEq : JSFields → JSFields → Bool
  | .nil, .nil => true
  | .cons k a as, .cons k2 b bs => k == k2 && jsValEq a b && jsFieldsEq as bs
  | _, _ => false
end

/-- Truthiness of a JS value (`Boolean(v)`): `null`, `false`, `0` and the
empty string are falsy, all other modelled values (including every array
and object) are truthy. -/
def jsTruthy : JSVal → Bool
  | .prim (.str s) => s ≠ ""
  | .prim (.num q) => q ≠ 0
  | .prim (.bool b) => b
  | .prim .null => false
  | .arr _ => true
  | .obj _ => true

/-- Length of a JS array spine. -/
def jsListLength : JSList → Nat
  | .nil => 0
  | .cons _ tl => jsListLength tl + 1

/-- Element of a JS array spine at an index. -/
def jsListGet : JSList → Nat → Option JSVal
  | .nil, _ => none
  | .cons h _, 0 => some h
  | .cons _ t, n+1 => jsListGet t n

/-- Replacement of the element at an index of a JS array spine (JS
`a[i] = v` for an index already in range). -/
def jsListSet : JSList → Nat → JSVal → JSList
  | .nil, _, _ => .nil
  | .cons _ t, 0, v => .cons v t
  | .cons h t, n+1, v => .cons h (jsListSet t n v)

/-- Lookup of an object field by key (JS `o[k]`; `none` stands for JS
`undefined`). -/
def jsFieldsGet : JSFields → String → Option JSVal
  | .nil, _ => none
  | .cons k v t, key => if k == key then some v else jsFieldsGet t key

/-- In-place update of an existing object field (JS `o[k] = v` for a key
that is already present; insertion order is preserved). -/
def jsFieldsSet : JSFields → String → JSVal → JSFields
  | .nil, _, _ => .nil
  | .cons k v t, key, nv =>
    if k == key then .cons k nv t else .cons k v (jsFieldsSet t key nv)

/-- Keys of an object in insertion order (JS `Object.keys`). -/
def jsFieldsKeys : JSFields → List String
  | .nil => []
  | .cons k _ t => k :: jsFieldsKeys t

/-! ## Character-list string utilities

Lean's built-in `String.splitOn` / `String.replace` do not reduce inside
the kernel, so the JS string operations used by the source are
implemented here over `List Char`. -/

/-- Splitting of a character list at every occurrence of a separator
character, mirroring JS `String.prototype.split` with a one-character
separator: `"".split(c)` is `[""]`, and separators at the ends produce
empty pieces. -/
def jsSplitChar (c : Char) : List Char → List (List Char)
  | [] => [[]]
  | x :: xs =>
    match jsSplitChar c xs with
    | h :: t => if x = c then [] :: h :: t else (x :: h) :: t
    | [] => if x = c then [[], [x]] else [[x]]

/-- Joining of character-list pieces with a separator character,
mirroring JS `Array.prototype.join` with a one-character separator. -/
def jsJoinChar (c : Char) : List (List Char) → List Char
  | [] => []
  | [p] => p
  | p :: q :: t => p ++ c :: jsJoinChar c (q :: t)

/-- String-level wrapper around `jsSplitChar`. -/
def jsSplitStr (c : Char) (s : String) : List String :=
  (jsSplitChar c s.toList).map String.mk

/-- Last element of the split of a dotted name, mirroring the source's
`name.split('.').pop()`. -/
def lastSeg (s : String) : String :=
  (jsSplitStr '.' s).getLastD ""

/-- Test whether `pat` occurs as a prefix of `l`; on success the
remainder after the match is returned. -/
def stripPrefixChars : List Char → List Char → Option (List Char)
  | [], l => some l
  | _, [] => none
  | p :: ps, x :: xs => if p = x then stripPrefixChars ps xs else none

/-- Replacement of the first occurrence of `pat` (a nonempty pattern) in
a character list, mirroring JS `String.prototype.replace` with a string
pattern; if the pattern does not occur the list is unchanged. -/
def replaceFirstChars (pat repl : List Char) : List Char → List Char
  | [] => []
  | x :: xs =>
    match stripPrefixChars pat (x :: xs) with
    | some rest => repl ++ rest
    | none => x :: replaceFirstChars pat repl xs

/-- String-level wrapper around `replaceFirstChars`, used for the
source's `childName.replace(parent._name, '')`. -/
def jsReplaceFirst (s pat repl : String) : String :=
  if pat = "" then repl ++ s
  else String.mk (replaceFirstChars pat.toList repl.toList s.toList)

/-- Parsing of the leading decimal digits of a character list. -/
def digitsToNat : List Char → Option Nat → Option Nat
  | [], acc => acc
  | c :: cs, acc =>
    if c.isDigit then
      digitsToNat cs (some ((acc.getD 0) * 10 + (c.toNat - '0'.toNat)))
    else acc

/-- JS `parseInt` restricted to what the version strings need: an
optional sign followed by leading decimal digits; `none` models `NaN`. -/
def jsParseInt (s : String) : Option Int :=
  match s.toList with
  | '-' :: rest => (digitsToNat rest none).map (fun n => -(n : Int))
  | '+' :: rest => (digitsToNat rest none).map (fun n => (n : Int))
  | l => (digitsToNat l none).map (fun n => (n : Int))

/-- Joining of string pieces with a separator character (JS
`parts.join(sep)`). -/
def jsJoinStr (c : Char) (parts : List String) : String :=
  String.mk (jsJoinChar c (parts.map String.toList))

/-! ## Schemas and validator chains

A schema node (`Schema`) mirrors the dynamic dispatch of `_shouldBe`:
validator chains (`shapeOf.isValidator`), plain functions, array
literals, object literals, regular-expression objects and scalar
literals.  A validator chain is represented by the data that
`_makeValidatorProperties` / `_validatorArgHandler` maintain and that
`_serializeValidator` reads: its `_name`, its `_optional` flag and its
`_callChain` of links, each link carrying a name, captured arguments and
the underlying core callback. -/

/-- Identifiers for the core validator callbacks of the source
(`_shapeOf_number`, `_shapeOf_length`, ...).  A link stores its callback
by identifier; `runCallbackF` below gives each one its semantics. -/
inductive Callback where
  | number
  | numberRange
  | greaterThanOrEqualTo
  | lessThanOrEqualTo
  | integer
  | string
  | stringPattern
  | stringEmail
  | stringIPv4
  | stringIPv6
  | length
  | array
  | bool
  | object
  | nullType
  | primitive
  | arrayOf
  | objectOf
  | oneOf
  | oneOfType
  | eachOf
  deriving DecidableEq

/-- Type of custom functional validators: a pure one-argument function
returning the accepted (possibly transformed) value or the absent
signal.  In-place mutation performed by real JS callbacks is modelled by
the returned value. -/
def JSValFun : Type := JSVal → Option JSVal

mutual
/-- Schema nodes, one constructor per runtime shape distinguished by the
evaluation engine and the serializer. -/
inductive Schema where
  | lit (p : Prim)
  | regexp (source flags : String)
  | func (f : JSValFun)
  | arrLit (elems : SchemaList)
  | objMap (fields : SchemaFields)
  | validator (name : String) (optional : Bool) (chain : LinkList)
/-- A list of schema nodes (array-literal schemas, validator argument
lists, combinator type lists). -/
inductive SchemaList where
  | nil
  | cons (hd : Schema) (tl : SchemaList)
/-- Ordered fields of an object-map schema. -/
inductive SchemaFields where
  | nil
  | cons (key : String) (val : Schema) (tl : SchemaFields)
/-- A validator call chain (`_callChain`): ordered links, each the call
signature of one validator in the chain with its captured arguments. -/
inductive LinkList where
  | nil
  | cons (name : String) (args : SchemaList) (cb : Callback) (tl : LinkList)
end

/-- Length of a schema list. -/
def slLength : SchemaList → Nat
  | .nil => 0
  | .cons _ tl => slLength tl + 1

/-- Concatenation of schema lists. -/
def slAppend : SchemaList → SchemaList → SchemaList
  | .nil, ys => ys
  | .cons x xs, ys => .cons x (slAppend xs ys)

/-- Membership of a schema in a schema list. -/
def slMem (s : Schema) : SchemaList → Prop
  | .nil => False
  | .cons x xs => s = x ∨ slMem s xs

/-- Reversal of a schema list. -/
def slReverse : SchemaList → SchemaList
  | .nil => .nil
  | .cons x xs => slAppend (slReverse xs) (.cons x .nil)

/-- Flattening of variadic arguments (`_flattenArgs`): an argument that
is itself a JS array contributes its elements in place. -/
def jsFlattenArgs : SchemaList → SchemaList
  | .nil => .nil
  | .cons (.arrLit es) tl => slAppend es (jsFlattenArgs tl)
  | .cons x tl => .cons x (jsFlattenArgs tl)

/-- Concatenation of call chains. -/
def llAppend : LinkList → LinkList → LinkList
  | .nil, ys => ys
  | .cons n a c xs, ys => .cons n a c (llAppend xs ys)

/-- Length of a call chain. -/
def llLength : LinkList → Nat
  | .nil => 0
  | .cons _ _ _ tl => llLength tl + 1

/-- Replacement of the arguments of the last link of a chain, mirroring
`_validatorArgHandler`'s pop of the stale `_thisCall` followed by the
push of the updated one. -/
def llSetLastArgs (args : SchemaList) : LinkList → LinkList
  | .nil => .nil
  | .cons n _ c .nil => .cons n args c .nil
  | .cons n a c tl => .cons n a c (llSetLastArgs args tl)

/-- Optionality flag read off a schema node, mirroring the JS property
access `expected._optional`: only validator chains carry the flag, every
other node yields `undefined`, i.e. `false`. -/
def schemaOptional : Schema → Bool
  | .validator _ opt _ => opt
  | _ => false

/-- Error values thrown by the modelled JS code. -/
inductive JSErr where
  | typeError (msg : String)
  | configError (msg : String)
  | invalidShape
  | custom (v : JSVal)
  | fuelOut

/-! ## Core validator predicate callbacks

Direct transcriptions of the `_shapeOf_*` functions of the source that
do not recurse into the evaluation engine. -/

/-- Validator for number types (`_shapeOf_number`). -/
def shapeOf_number : JSVal → Option JSVal
  | .prim (.num q) => some (.prim (.num q))
  | _ => none

/-- Validator for string types (`_shapeOf_string`). -/
def shapeOf_string : JSVal → Option JSVal
  | .prim (.str s) => some (.prim (.str s))
  | _ => none

/-- Validator for boolean types (`_shapeOf_bool`). -/
def shapeOf_bool : JSVal → Option JSVal
  | .prim (.bool b) => some (.prim (.bool b))
  | _ => none

/-- Validator for object types (`_shapeOf_object`): `typeof obj ===
'object' && obj !== null`, which accepts plain objects and arrays. -/
def shapeOf_object : JSVal → Option JSVal
  | .arr es => some (.arr es)
  | .obj fs => some (.obj fs)
  | _ => none

/-- Validator for null (`_shapeOf_null`). -/
def shapeOf_null : JSVal → Option JSVal
  | .prim .null => some (.prim .null)
  | _ => none

/-- Validator for array types (`_shapeOf_array`). -/
def shapeOf_array : JSVal → Option JSVal
  | .arr es => some (.arr es)
  | _ => none

/-- Validator for integer numbers (`_shapeOf_integer` via
`Number.isInteger`); infinities and NaN are outside the rational
model. -/
def shapeOf_integer : JSVal → Option JSVal
  | .prim (.num q) => if q.den = 1 then some (.prim (.num q)) else none
  | _ => none

/-- The JS short-circuit disjunction `a || b` as it acts on validator
results: a defined but falsy left result (such as `''`, `false` or `0`)
is discarded and the right operand is evaluated instead. -/
def jsOr (a b : Option JSVal) : Option JSVal :=
  match a with
  | some v => if jsTruthy v then some v else b
  | none => b

/-- Validator for primitive types (`_shapeOf_primitive`), transcribed
with its JS `||` chain:
`_shapeOf_string(obj) || _shapeOf_bool(obj) || _shapeOf_number(obj) ||
_shapeOf_null(obj)`. -/
def shapeOf_primitive (v : JSVal) : Option JSVal :=
  jsOr (shapeOf_string v) (jsOr (shapeOf_bool v) (jsOr (shapeOf_number v) (shapeOf_null v)))

/-- Numeric value of a captured validator argument; a non-numeric
argument behaves like JS `NaN` in the comparisons below (every
comparison involving it is false). -/
def argAsNum : Schema → Option ℚ
  | .lit (.num q) => some q
  | _ => none

/-- Numeric value of the object under validation for the relational
callbacks.  The source compares `obj` directly with `<=` / `>=`; only
numbers are modelled as comparable (string-to-number coercion does not
arise in registry chains, where a number/integer link always precedes
these callbacks). -/
def objAsNum : JSVal → Option ℚ
  | .prim (.num q) => some q
  | _ => none

/-- Validator for a number range (`_shapeOf_number_range`): bounds are
normalized with `Math.min`/`Math.max`, so argument order is
irrelevant. -/
def shapeOf_number_range (a0 a1 : Option Schema) (v : JSVal) : Option JSVal :=
  match a0.bind argAsNum, a1.bind argAsNum, objAsNum v with
  | some x, some y, some q =>
    if q ≤ max x y ∧ min x y ≤ q then some v else none
  | _, _, _ => none

/-- Validator using `>=` (`_shapeOf_greaterThanOrEqualTo`). -/
def shapeOf_gte (a0 : Option Schema) (v : JSVal) : Option JSVal :=
  match a0.bind argAsNum, objAsNum v with
  | some m, some q => if m ≤ q then some v else none
  | _, _ => none

/-- Validator using `<=` (`_shapeOf_lessThanOrEqualTo`). -/
def shapeOf_lte (a0 : Option Schema) (v : JSVal) : Option JSVal :=
  match a0.bind argAsNum, objAsNum v with
  | some m, some q => if q ≤ m then some v else none
  | _, _ => none

/-- The JS `obj.length` read performed by `_shapeOf_length`: strings and
arrays have a numeric length, other values yield `undefined`, making
every comparison false.  (Reading `.length` of `null` would throw, but
`null` cannot reach a length link of a registry chain: the preceding
string/array link rejects it first.) -/
def jsLengthOf : JSVal → Option ℚ
  | .prim (.str s) => some (s.length : ℚ)
  | .arr es => some ((jsListLength es : ℕ) : ℚ)
  | _ => none

/-- Validator for lengths (`_shapeOf_length`): one captured argument
requires the exact length, two captured arguments form an inclusive,
order-independent range. -/
def shapeOf_length (args : SchemaList) (v : JSVal) : Except JSErr (Option JSVal) :=
  match args with
  | .cons a0 .nil =>
    match jsLengthOf v, argAsNum a0 with
    | some len, some x => .ok (if len = x then some v else none)
    | _, _ => .ok none
  | .cons a0 (.cons a1 .nil) =>
    match jsLengthOf v, argAsNum a0, argAsNum a1 with
    | some len, some x, some y =>
      .ok (if min x y ≤ len ∧ len ≤ max x y then some v else none)
    | _, _, _ => .ok none
  | _ => .error (.configError "Length validator requires between one and two arguments")

/-! ## The core validator registry

Transcription of the `_coreValidators` table and of the initialization
loop that registers every core validator together with its `optional`
twin (`shapeOf.optional.*`). -/

/-- One row of the `_coreValidators` table: a name, the core callback and
the options recognized by `shapeOf.Validator`. -/
structure VSpec where
  name : String
  callback : Callback
  parent : Option String := none
  aliases : List String := []
  requiredArgsCount : Option Nat := none

/-- The declared parameter count (JS `Function.length`) of each core
callback; rest-parameter callbacks have length `0`. -/
def callbackArity : Callback → Nat
  | .number => 1
  | .numberRange => 3
  | .greaterThanOrEqualTo => 2
  | .lessThanOrEqualTo => 2
  | .integer => 1
  | .string => 1
  | .stringPattern => 0
  | .stringEmail => 1
  | .stringIPv4 => 1
  | .stringIPv6 => 1
  | .length => 0
  | .array => 1
  | .bool => 1
  | .object => 1
  | .nullType => 1
  | .primitive => 1
  | .arrayOf => 0
  | .objectOf => 0
  | .oneOf => 0
  | .oneOfType => 0
  | .eachOf => 0

/-- The `_coreValidators` table of the source, in declaration order. -/
def coreValidators : List VSpec := [
  { name := "shapeOf.number", callback := .number },
  { name := "shapeOf.number.range", callback := .numberRange,
    parent := some "shapeOf.number", requiredArgsCount := some 2 },
  { name := "shapeOf.number.min", callback := .greaterThanOrEqualTo,
    parent := some "shapeOf.number",
    aliases := ["shapeOf.number.greaterThanOrEqualTo"], requiredArgsCount := some 1 },
  { name := "shapeOf.number.max", callback := .lessThanOrEqualTo,
    parent := some "shapeOf.number",
    aliases := ["shapeOf.number.lessThanOrEqualTo"], requiredArgsCount := some 1 },
  { name := "shapeOf.integer", callback := .integer },
  { name := "shapeOf.integer.range", callback := .numberRange,
    parent := some "shapeOf.integer", requiredArgsCount := some 2 },
  { name := "shapeOf.integer.min", callback := .greaterThanOrEqualTo,
    parent := some "shapeOf.integer",
    aliases := ["shapeOf.integer.greaterThanOrEqualTo"], requiredArgsCount := some 1 },
  { name := "shapeOf.integer.max", callback := .lessThanOrEqualTo,
    parent := some "shapeOf.integer",
    aliases := ["shapeOf.integer.lessThanOrEqualTo"], requiredArgsCount := some 1 },
  { name := "shapeOf.string", callback := .string },
  { name := "shapeOf.string.size", callback := .length,
    parent := some "shapeOf.string",
    aliases := ["shapeOf.string.ofSize"], requiredArgsCount := some 1 },
  { name := "shapeOf.string.pattern", callback := .stringPattern,
    parent := some "shapeOf.string",
    aliases := ["shapeOf.string.matching"], requiredArgsCount := some 1 },
  { name := "shapeOf.string.email", callback := .stringEmail,
    parent := some "shapeOf.string", aliases := ["shapeOf.string.ofEmail"] },
  { name := "shapeOf.string.IPv4", callback := .stringIPv4,
    parent := some "shapeOf.string",
    aliases := ["shapeOf.string.ofIPv4", "shapeOf.string.ipv4"] },
  { name := "shapeOf.string.IPv6", callback := .stringIPv6,
    parent := some "shapeOf.string",
    aliases := ["shapeOf.string.ofIPv6", "shapeOf.string.ipv6"] },
  { name := "shapeOf.array", callback := .array },
  { name := "shapeOf.array.size", callback := .length,
    parent := some "shapeOf.array",
    aliases := ["shapeOf.array.ofSize"], requiredArgsCount := some 1 },
  { name := "shapeOf.bool", callback := .bool, aliases := ["shapeOf.boolean"] },
  { name := "shapeOf.object", callback := .object },
  { name := "shapeOf.null", callback := .nullType },
  { name := "shapeOf.primitive", callback := .primitive },
  { name := "shapeOf.arrayOf", callback := .arrayOf },
  { name := "shapeOf.arrayOf.size", callback := .length,
    parent := some "shapeOf.arrayOf",
    aliases := ["shapeOf.arrayOf.ofSize"], requiredArgsCount := some 1 },
  { name := "shapeOf.objectOf", callback := .objectOf },
  { name := "shapeOf.oneOf", callback := .oneOf, requiredArgsCount := some 1 },
  { name := "shapeOf.oneOfType", callback := .oneOfType, requiredArgsCount := some 1 },
  { name := "shapeOf.eachOf", callback := .eachOf,
    aliases := ["shapeOf.each"], requiredArgsCount := some 1 }
]

/-- A registered validator as held in `shapeOf.Validator._validators`:
the canonical name, callback, declared parent, aliases, required
argument count (explicit, or `Function.length - 1` clamped at zero) and
the optional flag. -/
structure RegEntry where
  name : String
  callback : Callback
  parent : Option String
  aliases : List String
  requiredArgs : Nat
  optional : Bool
  deriving DecidableEq

/-- The optional-namespace name of a validator, following the
initialization loop: `names[0] + '.optional.' + names.slice(1).join('.')`. -/
def optionalizeName (n : String) : String :=
  match jsSplitStr '.' n with
  | [] => n
  | n0 :: rest => n0 ++ ".optional." ++ jsJoinStr '.' rest

/-- The registry rows contributed by one `_coreValidators` row: the core
validator itself followed by its optional twin, whose name and parent
are moved into the `optional` namespace while its aliases are kept
verbatim (as the initialization loop does: `optOptions` spreads the
original options and only overrides `optional` and `parent`). -/
def specEntries (s : VSpec) : List RegEntry :=
  [ { name := s.name, callback := s.callback, parent := s.parent,
      aliases := s.aliases,
      requiredArgs := s.requiredArgsCount.getD (callbackArity s.callback - 1),
      optional := false },
    { name := optionalizeName s.name, callback := s.callback,
      parent := s.parent.map optionalizeName,
      aliases := s.aliases,
      requiredArgs := s.requiredArgsCount.getD (callbackArity s.callback - 1),
      optional := true } ]

/-- The full registry contents in registration order. -/
def registryEntries : List RegEntry := coreValidators.flatMap specEntries

/-- Lookup in `shapeOf.Validator._validators` by name or alias.  The
registry is a JS map written in registration order, so on a key
collision the latest registration wins; the fold below keeps the last
match. -/
def lookupRegistry (key : String) : Option RegEntry :=
  registryEntries.foldl
    (fun acc e => if e.name = key ∨ e.aliases.contains key then some e else acc)
    none

/-! ## Validator objects

The observable state of a validator chain object: its `_name`,
`_optional` flag, `_callChain` and `_requiredArgsCount`.
`_attachSubValidator` and `_validatorArgHandler` are modelled as
operations on this state. -/

/-- Observable state of a validator chain object. -/
structure ValObj where
  name : String
  optional : Bool
  chain : LinkList
  requiredArgs : Nat

/-- The freshly registered validator object for a registry entry, as
built by `shapeOf.Validator` via `_makeValidatorProperties`: a
single-link chain carrying the entry's callback and no arguments. -/
def registryObj (e : RegEntry) : ValObj :=
  { name := e.name, optional := e.optional,
    chain := .cons e.name .nil e.callback .nil,
    requiredArgs := e.requiredArgs }

/-- Attachment of a child validator to a parent (`_attachSubValidator`):
the attached object keeps the child's name, callback data and required
argument count, gains the parent's optional flag when the parent is
optional, and its call chain becomes the parent's chain followed by the
child's chain. -/
def attachSubValidator (parent child : ValObj) : ValObj :=
  { name := child.name,
    optional := child.optional || parent.optional,
    chain := llAppend parent.chain child.chain,
    requiredArgs := child.requiredArgs }

/-- The property key under which a child is attached to its parent:
`name.replace(parent._name, '').split('.').pop()`. -/
def attachKeyFor (parentName childName : String) : String :=
  lastSeg (jsReplaceFirst childName parentName "")

/-- All property keys under which a registry entry is attached to its
parent (one per name and alias, as `_attachSubValidator` loops over
`[child._name].concat(child._aliases)`). -/
def attachKeys (parentName : String) (e : RegEntry) : List String :=
  (e.name :: e.aliases).map (attachKeyFor parentName)

/-- Canonical name of the parent a registry entry is attached to:
`options.parent` resolved through the registry, as `_attachSubValidator`
does for string parents. -/
def parentNameOf (e : RegEntry) : Option String :=
  (e.parent.bind lookupRegistry).map RegEntry.name

/-- Navigation to an attached sub-validator: the registry entry exposed
under property `key` of a validator object whose `_name` is
`parentName`.  Later registrations overwrite earlier ones on the same
key, hence the last-match fold. -/
def subEntry (parentName key : String) : Option RegEntry :=
  registryEntries.foldl
    (fun acc e =>
      if parentNameOf e = some parentName ∧ (attachKeys parentName e).contains key
      then some e else acc)
    none

/-- The sub-validator object reached by property access `cur[key]`: the
child entry attached under `key`, re-based on the current object's chain
(as `_validatorArgHandler` re-attaches sub-validators on every
invocation) and inheriting the current optional flag when set. -/
def subNavigate (cur : ValObj) (key : String) : Option ValObj :=
  (subEntry cur.name key).map fun e =>
    { name := e.name,
      optional := e.optional || cur.optional,
      chain := llAppend cur.chain (.cons e.name .nil e.callback .nil),
      requiredArgs := e.requiredArgs }

/-- Invocation of a validator object with arguments
(`_validatorArgHandler`): the argument count is checked against
`_requiredArgsCount`, then the stale `_thisCall` is popped off the chain
and replaced by a link carrying the supplied arguments. -/
def invokeValidator (cur : ValObj) (args : SchemaList) : Except JSErr ValObj :=
  if slLength args < cur.requiredArgs then
    .error (.configError ("Validator " ++ cur.name ++ " requires arguments"))
  else
    .ok { cur with chain := llSetLastArgs args cur.chain }

/-- The schema node denoted by a validator object. -/
def valObjSchema (v : ValObj) : Schema :=
  .validator v.name v.optional v.chain

/-! ## Serialized descriptors

The portable descriptor tree produced by `_serialize`: tagged nodes of
type `object` / `field` / `array` / `primitive` / `validator` /
`regexp`.  The `funcPrim` constructor records the source's fall-through
behaviour of placing a function value into a `primitive` node (JSON
stringification, which would drop it, is not modelled). -/

mutual
/-- A serialized descriptor node. -/
inductive Desc where
  | primitive (p : Prim)
  | funcPrim (f : JSValFun)
  | field (name : String) (value : Desc)
  | object (fields : DescList)
  | array (elems : DescList)
  | regexp (value flags : String)
  | validator (name : String) (optional : Bool) (callChain : DLinkList)
/-- A list of descriptor nodes. -/
inductive DescList where
  | nil
  | cons (hd : Desc) (tl : DescList)
/-- A serialized call chain: per link its name and serialized
arguments. -/
inductive DLinkList where
  | nil
  | cons (name : String) (args : DescList) (tl : DLinkList)
end

/-- Truthiness of a schema node viewed as a JS value (objects, arrays,
functions, regexps and validator objects are always truthy). -/
def schemaTruthy : Schema → Bool
  | .lit p => jsTruthy (.prim p)
  | _ => true

/-- Scan for a `toJSON` field whose value is truthy, which would make
`_serialize` return the object unchanged. -/
def hasToJSONHook : SchemaFields → Bool
  | .nil => false
  | .cons k v tl => (k == "toJSON" && schemaTruthy v) || hasToJSONHook tl

/-- True of the schema nodes that are functions at the JS level, as
tested by `typeof obj.serialize === 'function'`: raw functions, and
validator objects, which `shapeOf.Validator` builds as bound copies of
`_validatorArgHandler` and are therefore themselves functions. -/
def schemaIsFunction : Schema → Bool
  | .func _ => true
  | .validator _ _ _ => true
  | _ => false

/-- Scan for a `serialize` field holding a function (including a
validator, which is a function in JS), which `_serialize` would call as
a custom serializer hook. -/
def hasSerializeHook : SchemaFields → Bool
  | .nil => false
  | .cons k v tl => (k == "serialize" && schemaIsFunction v) || hasSerializeHook tl

/-- Serialization of a regular expression, following the source: the
regex is printed as `'/' + source + '/' + flags`, split on `'/'`, the
flags popped off the end, the leading empty piece shifted away, and the
remaining pieces rejoined with `'/'`. -/
def serializeRegexp (src flags : String) : Desc :=
  .regexp
    (jsJoinStr '/' (((jsSplitStr '/' ("/" ++ src ++ "/" ++ flags)).dropLast).drop 1))
    ((jsSplitStr '/' ("/" ++ src ++ "/" ++ flags)).getLastD "")

mutual
/-- Serialization of a schema node (`_serialize`).  Dispatch follows the
source: the `toJSON` / custom-`serialize` hooks (which never fire for
the schema class under study and whose effect of splicing arbitrary
user data is not modelled) are flagged as errors; a validator serializes
through `serializeValidator`; arrays, regexps, objects and scalar
literals follow their branches; `_serialize(null)` throws a `TypeError`
because the source reads `obj.toJSON` off the `null` value. -/
def serializeSchema : Schema → Except JSErr Desc
  | .lit .null => .error (.typeError "Cannot read properties of null")
  | .lit p => .ok (.primitive p)
  | .func f => .ok (.funcPrim f)
  | .validator name opt chain =>
    (serializeChain chain).map (Desc.validator name opt)
  | .arrLit es => (serializeList es).map Desc.array
  | .regexp src flags => .ok (serializeRegexp src flags)
  | .objMap fields =>
    if hasToJSONHook fields then .error (.configError "toJSON hook not modelled")
    else if hasSerializeHook fields then .error (.configError "serialize hook not modelled")
    else (serializeFields fields).map Desc.object
/-- Serialization of the elements of an array literal or of a captured
argument list. -/
def serializeList : SchemaList → Except JSErr DescList
  | .nil => .ok .nil
  | .cons s tl => do
    let d ← serializeSchema s
    let rest ← serializeList tl
    .ok (.cons d rest)
/-- Serialization of object-map fields into `field` descriptor nodes. -/
def serializeFields : SchemaFields → Except JSErr DescList
  | .nil => .ok .nil
  | .cons k v tl => do
    let d ← serializeSchema v
    let rest ← serializeFields tl
    .ok (.cons (.field k d) rest)
/-- Serialization of a call chain (`_serializeValidator`): every link is
kept with its name and its serialized arguments, so that
deserialization can replay the entire history. -/
def serializeChain : LinkList → Except JSErr DLinkList
  | .nil => .ok .nil
  | .cons n args _cb tl => do
    let sargs ← serializeList args
    let rest ← serializeChain tl
    .ok (.cons n sargs rest)
end

/-- Assignment `parent[name] = v` while rebuilding a deserialized
object: an existing key is overwritten in place, a new key is appended
in insertion order. -/
def sfSet : SchemaFields → String → Schema → SchemaFields
  | .nil, key, v => .cons key v .nil
  | .cons k w tl, key, v =>
    if k == key then .cons k v tl else .cons k w (sfSet tl key v)

mutual
/-- Deserialization of a descriptor node (`_deserialize`).  A bare
`field` node has no parent and raises, as in the source; `primitive`
and `regexp` nodes are rebuilt directly; `object` and `array` nodes are
rebuilt recursively; a `validator` node is replayed through the
registry by `deserializeValidator`. -/
def deserializeDesc : Desc → Except JSErr Schema
  | .primitive p => .ok (.lit p)
  | .funcPrim f => .ok (.func f)
  | .field _ _ => .error (.configError "No parent present for field type")
  | .object dl => (deserializeObjectMembers dl .nil).map Schema.objMap
  | .array dl => (deserializeList dl).map Schema.arrLit
  | .regexp v f => .ok (.regexp v f)
  | .validator nm _opt cc =>
    if nm = "" then .error (.configError "Malformed validator")
    else deserializeValidator cc none
/-- Rebuilding of an object's fields: each `field` member checks its
name and assigns `parent[name]`; a member of any other type is
deserialized for effect and its result discarded, exactly as the
source's `forEach` does.  The source reads the deserialized `optional`
flag of a validator envelope into a local variable and never uses it;
the replay recovers optionality from the registry instead. -/
def deserializeObjectMembers : DescList → SchemaFields → Except JSErr SchemaFields
  | .nil, acc => .ok acc
  | .cons d tl, acc =>
    match d with
    | .field nm dv =>
      if nm = "" then .error (.configError "Illegal or missing field name")
      else do
        let v ← deserializeDesc dv
        deserializeObjectMembers tl (sfSet acc nm v)
    | other => do
      let _ ← deserializeDesc other
      deserializeObjectMembers tl acc
/-- Deserialization of array elements. -/
def deserializeList : DescList → Except JSErr SchemaList
  | .nil => .ok .nil
  | .cons d tl => do
    let s ← deserializeDesc d
    let rest ← deserializeList tl
    .ok (.cons s rest)
/-- Replay of a serialized call chain (`_deserializeValidator`): each
link's validator is looked up in the registry; from the second link on,
navigation goes through the attached sub-validator under
`link.name.split('.').pop()`; a link with arguments re-invokes the
navigated validator with the deserialized arguments.  An empty chain
would make the source return `undefined`; it is modelled as an error
and never arises from serializer output. -/
def deserializeValidator : DLinkList → Option ValObj → Except JSErr Schema
  | .nil, none => .error (.configError "empty callChain")
  | .nil, some cur => .ok (valObjSchema cur)
  | .cons lname largs tl, cur =>
    if lname = "" then .error (.configError "Malformed validator")
    else
      match lookupRegistry lname with
      | none => .error (.configError ("Validator not found: " ++ lname))
      | some entry =>
        match cur with
        | some c =>
          match subNavigate c (lastSeg lname) with
          | none => .error (.configError ("Cannot find sub-validator " ++ lname))
          | some subObj =>
            match largs with
            | .nil => deserializeValidator tl (some subObj)
            | _ => do
              let args ← deserializeList largs
              match invokeValidator subObj args with
              | .error e => .error e
              | .ok inv => deserializeValidator tl (some inv)
        | none =>
          match largs with
          | .nil => deserializeValidator tl (some (registryObj entry))
          | _ => do
            let args ← deserializeList largs
            match invokeValidator (registryObj entry) args with
            | .error e => .error e
            | .ok inv => deserializeValidator tl (some inv)
end

/-! ## Versioned envelope -/

/-- The library version baked into the source. -/
def shapeOf_versionStr : String := "0.0.8"

/-- The compatible-schema-version baked into the source. -/
def shapeOf_compatibleSchemaVersion : String := "0.0.8"

/-- Comparison of optional parsed integers with `>=`; a `none` models a
JS `NaN` operand, for which every comparison is false. -/
def geNaN (a b : Option Int) : Bool :=
  match a, b with
  | some x, some y => y ≤ x
  | _, _ => false

/-- Comparison of optional parsed integers with `>`. -/
def gtNaN (a b : Option Int) : Bool :=
  match a, b with
  | some x, some y => y < x
  | _, _ => false

/-- Transcription of `_isCompatibileVersion` (the source's spelling):
both versions are split on `'.'`, must have exactly three components,
which are compared with the formula
`c0 >= v0 && (c1 >= v1 || c0 > v0) && (c2 >= v2 || c1 > v1)`. -/
def isCompatibileVersion (currentVer compatibleVer : String) : Except JSErr Bool :=
  let cv := jsSplitStr '.' currentVer
  let mv := jsSplitStr '.' compatibleVer
  if cv.length ≠ 3 ∨ mv.length ≠ 3 then .error (.configError "Bad version format")
  else
    let c0 := jsParseInt (cv.getD 0 "")
    let c1 := jsParseInt (cv.getD 1 "")
    let c2 := jsParseInt (cv.getD 2 "")
    let v0 := jsParseInt (mv.getD 0 "")
    let v1 := jsParseInt (mv.getD 1 "")
    let v2 := jsParseInt (mv.getD 2 "")
    .ok (geNaN c0 v0 && (geNaN c1 v1 || gtNaN c0 v0) && (geNaN c2 v2 || gtNaN c1 v1))

/-- The serialized envelope (`shapeOf.serialize` with `returnsObject`;
the JSON text encoding is not modelled). -/
structure Envelope where
  shapeOfVersion : String
  shapeOfSchemaVersion : String
  schema : Desc

/-- Top-level serialization (`shapeOf.serialize`): the descriptor tree
wrapped in an envelope carrying the library version and the
compatible-schema-version. -/
def shapeOf_serialize (s : Schema) : Except JSErr Envelope := do
  let d ← serializeSchema s
  .ok ⟨shapeOf_versionStr, shapeOf_compatibleSchemaVersion, d⟩

/-- Top-level deserialization (`shapeOf.deserialize`): the envelope's
fields are checked for truthiness, the version gate
`_isCompatibileVersion(shapeOf.compatibleSchemaVersion, envelope
version)` is applied, and on success the descriptor is deserialized. -/
def shapeOf_deserialize (env : Envelope) : Except JSErr Schema :=
  if env.shapeOfVersion = "" ∨ env.shapeOfSchemaVersion = "" then
    .error (.configError "Object does not appear to be a valid shapeOf schema")
  else do
    let ok ← isCompatibileVersion shapeOf_compatibleSchemaVersion env.shapeOfSchemaVersion
    if ok then deserializeDesc env.schema
    else .error (.configError "Incompatible schema versions")

/-- Standard semantic-version precedence, following the specification's
words in section 8: `a` precedes-or-equals `b` componentwise with
major/minor/patch lexicographic precedence.  This is the spec-side
comparator against which `_isCompatibileVersion` is measured. -/
def semverLeSpec (a b : Int × Int × Int) : Bool :=
  a.1 < b.1 ∨ (a.1 = b.1 ∧ (a.2.1 < b.2.1 ∨ (a.2.1 = b.2.1 ∧ a.2.2 ≤ b.2.2)))

/-! ## Regular-expression data

Sources of the fixed regexes used by the string refinements.  Matching
itself is delegated to an oracle (`RegexTest`); these constants only
matter as serialized data and as the arguments handed to the oracle. -/

/-- Oracle giving semantics to JS `RegExp.prototype.test`: arguments are
the regex source, the flags and the tested string. -/
def RegexTest : Type := String → String → String → Bool

/-- Replacement of every occurrence of a pattern, driven by fuel
(mirrors JS `String.prototype.replace` with a `/.../g` regex whose
pattern is a literal string). -/
def replaceAllCharsAux : Nat → List Char → List Char → List Char → List Char
  | 0, _, _, l => l
  | f+1, pat, repl, l =>
    match l with
    | [] => []
    | x :: xs =>
      match stripPrefixChars pat (x :: xs) with
      | some rest => repl ++ replaceAllCharsAux f pat repl rest
      | none => x :: replaceAllCharsAux f pat repl xs

/-- String-level replace-all wrapper. -/
def jsReplaceAll (s pat repl : String) : String :=
  String.mk (replaceAllCharsAux (s.toList.length + 1) pat.toList repl.toList s.toList)

/-- Source of `_shapeOf_string_email_regex`. -/
def shapeOf_string_email_regex : String :=
  "^(([^<>()\\[\\]\\\\.,;:\\s@\"]+(\\.[^<>()\\[\\]\\\\.,;:\\s@\"]+)*)|(\".+\"))@((\\[((25[0-5]|(2[0-4]|1[0-9]|[1-9]|)[0-9])\\.)\x7b3\x7d(25[0-5]|(2[0-4]|1[0-9]|[1-9]|)[0-9])\\])|(([a-zA-Z0-9][a-zA-Z\\-0-9]+\\.)+(?![wW][eE][bB])[a-zA-Z]\x7b2,\x7d))$"

/-- Source of `_shapeOf_string_ipv4_regex`. -/
def shapeOf_string_ipv4_regex : String :=
  "^((25[0-5]|(2[0-4]|1[0-9]|[1-9]|)[0-9])(\\.(?!$)|$))\x7b4\x7d$"

/-- The `_shapeOf_string_ipv6_o0` fragment. -/
def shapeOf_string_ipv6_o0 : String := "([0-9A-Fa-f]\x7b1,4\x7d:)"

/-- The `_shapeOf_string_ipv6_o1` fragment. -/
def shapeOf_string_ipv6_o1 : String := "(:[0-9A-Fa-f]\x7b1,4\x7d)"

/-- The `_shapeOf_string_ipv6_o2` fragment. -/
def shapeOf_string_ipv6_o2 : String := "(25[0-5]|2[0-4]\\d|1\\d\\d|[1-9]?\\d)"

/-- The IPv6 regex template before fragment substitution. -/
def shapeOf_string_ipv6_template : String :=
  "^\\s*((\x7b\x7bO0\x7d\x7d\x7b7\x7d([0-9A-Fa-f]\x7b1,4\x7d|:))|(\x7b\x7bO0\x7d\x7d\x7b6\x7d(:[0-9A-Fa-f]\x7b1,4\x7d|(\x7b\x7bO2\x7d\x7d(\\.\x7b\x7bO2\x7d\x7d)\x7b3\x7d)|:))|(\x7b\x7bO0\x7d\x7d\x7b5\x7d((\x7b\x7bO1\x7d\x7d\x7b1,2\x7d)|:(\x7b\x7bO2\x7d\x7d(\\.\x7b\x7bO2\x7d\x7d)\x7b3\x7d)|:))|(\x7b\x7bO0\x7d\x7d\x7b4\x7d((\x7b\x7bO1\x7d\x7d\x7b1,3\x7d)|(\x7b\x7bO1\x7d\x7d?:(\x7b\x7bO2\x7d\x7d(\\.\x7b\x7bO2\x7d\x7d)\x7b3\x7d))|:))|(\x7b\x7bO0\x7d\x7d\x7b3\x7d((\x7b\x7bO1\x7d\x7d\x7b1,4\x7d)|(\x7b\x7bO1\x7d\x7d\x7b0,2\x7d:(\x7b\x7bO2\x7d\x7d(\\.\x7b\x7bO2\x7d\x7d)\x7b3\x7d))|:))|(\x7b\x7bO0\x7d\x7d\x7b2\x7d((\x7b\x7bO1\x7d\x7d\x7b1,5\x7d)|(\x7b\x7bO1\x7d\x7d\x7b0,3\x7d:(\x7b\x7bO2\x7d\x7d(\\.\x7b\x7bO2\x7d\x7d)\x7b3\x7d))|:))|(\x7b\x7bO0\x7d\x7d\x7b1\x7d((\x7b\x7bO1\x7d\x7d\x7b1,6\x7d)|(\x7b\x7bO1\x7d\x7d\x7b0,4\x7d:(\x7b\x7bO2\x7d\x7d(\\.\x7b\x7bO2\x7d\x7d)\x7b3\x7d))|:))|(:((\x7b\x7bO1\x7d\x7d\x7b1,7\x7d)|(\x7b\x7bO1\x7d\x7d\x7b0,5\x7d:(\x7b\x7bO2\x7d\x7d(\\.\x7b\x7bO2\x7d\x7d)\x7b3\x7d))|:)))(%.+)?\\s*$"

/-- Source of `_shapeOf_string_ipv6_regex` after the three fragment
substitutions performed at module load. -/
def shapeOf_string_ipv6_regex : String :=
  jsReplaceAll
    (jsReplaceAll
      (jsReplaceAll shapeOf_string_ipv6_template "\x7b\x7bO0\x7d\x7d" shapeOf_string_ipv6_o0)
      "\x7b\x7bO1\x7d\x7d" shapeOf_string_ipv6_o1)
    "\x7b\x7bO2\x7d\x7d" shapeOf_string_ipv6_o2

/-- Coercion of the tested value to a string for `RegExp.test`.  In
registry chains a string link always precedes the pattern-class links,
so only strings reach them; other values are given a fixed placeholder
rendering (the oracle is universally quantified anyway). -/
def jsDisplayString : JSVal → String
  | .prim (.str s) => s
  | _ => ""

/-! ## Evaluation engine

Transcription of `_shouldBe`, `_object`, `_executeValidator` and the
recursive combinator callbacks.  `_shouldBe` recurses through schema
values and through combinator callbacks that re-enter `shapeOf()`, so
the engine is indexed by fuel; every theorem either holds for all fuel
or takes the fuel shape `n+1` explicitly. -/

/-- Observable callback invocations, in order. -/
inductive Event where
  | invalidCb (id : Nat)
  | validCb (id : Nat)
  | completeCb (id : Nat)

/-- The options accumulated by the chained builder calls before a
terminal `shouldBe` (exactness, output mode, throw-on-failure with its
optional custom payload, callback lists). -/
structure Options where
  exact : Bool := false
  returnsObject : Bool := false
  returnsResults : Bool := false
  throwsOnInvalid : Bool := false
  errorObj : Option JSVal := none
  onInvalid : List Nat := []
  onValid : List Nat := []
  onComplete : List Nat := []

/-- Options of a plain `shapeOf(x)` entry with no chained toggles. -/
def defaultOpts : Options := {}

/-- Options of the fresh `shapeOf(x).returnsObject` entry used inside
the combinator callbacks. -/
def freshObjOpts : Options := { returnsObject := true }

/-- Options of the fresh `shapeOf(x).shouldBeExactly` entry used inside
`oneOfType` and `eachOf`. -/
def freshExactOpts : Options := { exact := true }

/-- Result of a terminal call, shaped by the requested output mode:
plain boolean, mutated-value (`returnsObject`), or the
`returnsResults` record (whose log field is not modelled). -/
inductive RtnVal where
  | boolRes (b : Bool)
  | objRes (v : Option JSVal)
  | resultsRes (success : Bool) (obj : JSVal)

/-- Truthiness of a terminal result as a JS value: a boolean is itself,
a returned object is its truthiness (absent is falsy), and a results
record is an object, hence always truthy. -/
def rtnTruthy : RtnVal → Bool
  | .boolRes b => b
  | .objRes (some w) => jsTruthy w
  | .objRes none => false
  | .resultsRes _ _ => true

/-- The value a `returnsObject`-mode call communicates to its caller.
Calls made with `returnsObject` always produce `objRes`; the remaining
constructors are mapped for totality only. -/
def rtnAsObj : RtnVal → Option JSVal
  | .objRes r => r
  | .boolRes b => some (.prim (.bool b))
  | .resultsRes _ o => some o

/-- Type of the recursive evaluator handed to the loop helpers for
inner evaluations in mutated-value mode. -/
def InnerEval : Type := JSVal → Schema → List Event × Except JSErr (Option JSVal)

/-- Type of the recursive evaluator used for the fresh
`shouldBeExactly` calls of `oneOfType` / `eachOf`. -/
def InnerExact : Type := JSVal → Schema → List Event × Except JSErr Bool

/-- Conversion of an array spine to a Lean list. -/
def jsListToList : JSList → List JSVal
  | .nil => []
  | .cons h t => h :: jsListToList t

/-- Conversion of a Lean list back to an array spine. -/
def listToJsList : List JSVal → JSList
  | [] => .nil
  | h :: t => .cons h (listToJsList t)

/-- Conversion of object fields to a Lean association list. -/
def jsFieldsToList : JSFields → List (String × JSVal)
  | .nil => []
  | .cons k v t => (k, v) :: jsFieldsToList t

/-- Decimal digits of a natural number, driven by fuel. -/
def natToStrAux : Nat → Nat → List Char
  | 0, _ => []
  | f+1, n =>
    if n < 10 then [Char.ofNat (n + '0'.toNat)]
    else natToStrAux f (n / 10) ++ [Char.ofNat (n % 10 + '0'.toNat)]

/-- Decimal rendering of a natural number (JS array index as a key). -/
def natToStr (n : Nat) : String := String.mk (natToStrAux (n + 1) n)

/-- Parse of a canonical array index ("0", "1", ...; no leading
zeros). -/
def strToIndex (s : String) : Option Nat :=
  match s.toList with
  | [] => none
  | c :: cs =>
    if (c :: cs).all Char.isDigit ∧ (c = '0' → cs = []) then
      digitsToNat (c :: cs) none
    else none

/-- Property read `o[key]` on a value reaching the object-matching code
(a plain object or an array; arrays expose their elements under
canonical index keys and their length under `"length"`). -/
def jsPropGet (v : JSVal) (key : String) : Option JSVal :=
  match v with
  | .obj fs => jsFieldsGet fs key
  | .arr es =>
    if key = "length" then some (.prim (.num ((jsListLength es : ℕ) : ℚ)))
    else
      match strToIndex key with
      | some i => jsListGet es i
      | none => none
  | .prim _ => none

/-- Property write `o[key] = nv` for a key whose read just succeeded. -/
def jsPropSet (v : JSVal) (key : String) (nv : JSVal) : JSVal :=
  match v with
  | .obj fs => .obj (jsFieldsSet fs key nv)
  | .arr es =>
    match strToIndex key with
    | some i => .arr (jsListSet es i nv)
    | none => v
  | .prim _ => v

/-- JS `Object.keys` on a value reaching the object-matching code. -/
def jsKeysOf (v : JSVal) : List String :=
  match v with
  | .obj fs => jsFieldsKeys fs
  | .arr es => (List.range (jsListLength es)).map natToStr
  | .prim _ => []

/-- Keys of an object-map schema in declaration order. -/
def sfKeys : SchemaFields → List String
  | .nil => []
  | .cons k _ t => k :: sfKeys t

/-- Reversal of schema fields, for the source's backwards iteration
over `Object.keys(schema)`. -/
def sfReverseAux : SchemaFields → SchemaFields → SchemaFields
  | .nil, acc => acc
  | .cons k v t, acc => sfReverseAux t (.cons k v acc)

/-- Reversed schema fields. -/
def sfReverse (fs : SchemaFields) : SchemaFields := sfReverseAux fs .nil

/-- Element of a schema list by position (the positional argument reads
`args[0]`, `args[1]` of the relational callbacks). -/
def slGet : SchemaList → Nat → Option Schema
  | .nil, _ => none
  | .cons h _, 0 => some h
  | .cons _ t, n+1 => slGet t n

/-- The field loop of `_object`, iterating the (already reversed)
declared fields: an absent input field passes only when the schema node
is optional and otherwise fails the whole object immediately; a present
field is evaluated recursively in mutated-value mode, a failure fails
the object, and a changed result is written back in place.  The
returned flag is the verdict; the returned value carries all mutations
applied before a failure, as the JS object would. -/
def objectFieldsLoop (inner : InnerEval) : SchemaFields → JSVal → List Event × Except JSErr (Bool × JSVal)
  | .nil, cur => ([], .ok (true, cur))
  | .cons key expected tl, cur =>
    match jsPropGet cur key with
    | none =>
      if schemaOptional expected then objectFieldsLoop inner tl cur
      else ([], .ok (false, cur))
    | some fv =>
      match inner fv expected with
      | (evs, .error e) => (evs, .error e)
      | (evs, .ok none) => (evs, .ok (false, cur))
      | (evs, .ok (some rv)) =>
        let cur2 := if jsValEq rv fv then cur else jsPropSet cur key rv
        match objectFieldsLoop inner tl cur2 with
        | (evs2, r2) => (evs ++ evs2, r2)

/-- Handling of an object-map schema (`_object`): a value that is not
of JS object type, or is `null`, fails before any field is looked at;
otherwise the declared fields are checked in reverse declaration order,
then exact mode rejects any input key outside the declared key set;
the result is the (possibly mutated) input in mutated-value mode and
`true` otherwise. -/
def objectMatchF (inner : InnerEval) (opts : Options) (v : JSVal) (fields : SchemaFields) :
    List Event × Except JSErr (Option JSVal × JSVal) :=
  match v with
  | .prim _ => ([], .ok (none, v))
  | _ =>
    match objectFieldsLoop inner (sfReverse fields) v with
    | (evs, .error e) => (evs, .error e)
    | (evs, .ok (false, v2)) => (evs, .ok (none, v2))
    | (evs, .ok (true, v2)) =>
      if opts.exact ∧ ¬ (jsKeysOf v2).all (fun k => (sfKeys fields).contains k) then
        (evs, .ok (none, v2))
      else
        (evs, .ok ((if opts.returnsObject then some v2 else some (.prim (.bool true))), v2))

/-- The element loop of the array-literal branch of `_shouldBe`, run
when the lengths already agree: each position is evaluated in
mutated-value mode; a failing position fails the array and stops the
loop, a changed result replaces the element in place. -/
def arrayLitLoop (inner : InnerEval) : SchemaList → JSList → List Event × Except JSErr (JSList × Bool)
  | .nil, .nil => ([], .ok (.nil, true))
  | .cons s stl, .cons x xtl =>
    match inner x s with
    | (evs, .error e) => (evs, .error e)
    | (evs, .ok none) => (evs, .ok (.cons x xtl, false))
    | (evs, .ok (some rv)) =>
      let x2 := if jsValEq rv x then x else rv
      match arrayLitLoop inner stl xtl with
      | (evs2, .error e) => (evs ++ evs2, .error e)
      | (evs2, .ok (rest, ok)) => (evs ++ evs2, .ok (.cons x2 rest, ok))
  | _, xs => ([], .ok (xs, false))

/-- The element loop of the array-literal branch when the evaluated
value is a string (JS strings are length-bearing and index-addressable,
so `_shouldBe` walks their characters; index assignment on a string is
a silent no-op). -/
def stringArrayLoop (inner : InnerEval) : SchemaList → List Char → List Event × Except JSErr Bool
  | .nil, [] => ([], .ok true)
  | .cons s stl, c :: cs =>
    match inner (.prim (.str (String.mk [c]))) s with
    | (evs, .error e) => (evs, .error e)
    | (evs, .ok none) => (evs, .ok false)
    | (evs, .ok (some _)) =>
      match stringArrayLoop inner stl cs with
      | (evs2, r2) => (evs ++ evs2, r2)
  | _, _ => ([], .ok false)

/-- Execution of a validator call chain (`_executeValidator`): the value
is threaded through every link's callback in order, stopping at the
first absent result.  The source's per-link required-arguments check
compares against `link._requiredArgsCount`, a property that call
signatures never carry, so it compares with `undefined` and never
fires. -/
def execValidator (runCb : Callback → SchemaList → JSVal → List Event × Except JSErr (Option JSVal)) :
    LinkList → JSVal → List Event × Except JSErr (Option JSVal)
  | .nil, v => ([], .ok (some v))
  | .cons _n args cb tl, v =>
    match runCb cb args v with
    | (evs, .error e) => (evs, .error e)
    | (evs, .ok none) => (evs, .ok none)
    | (evs, .ok (some v2)) =>
      match execValidator runCb tl v2 with
      | (evs2, r2) => (evs ++ evs2, r2)

/-- Search of the type list of `arrayOf` / `objectOf` for one element:
the types are tried in reverse declaration order (the list handed in is
already reversed), stopping at the first type that accepts. -/
def tryTypes (inner : InnerEval) : SchemaList → JSVal → List Event × Except JSErr (Option JSVal)
  | .nil, _ => ([], .ok none)
  | .cons t ttl, x =>
    match inner x t with
    | (evs, .error e) => (evs, .error e)
    | (evs, .ok (some res)) => (evs, .ok (some res))
    | (evs, .ok none) =>
      match tryTypes inner ttl x with
      | (evs2, r2) => (evs ++ evs2, r2)

/-- The element loop shared by `arrayOf` (over array elements, last to
first) and `objectOf` (over object values, last key to first): each
value must match some type; the first accepted result replaces the
value when different; the first failing value stops the loop with the
remaining values untouched. -/
def arrayOfLoop (inner : InnerEval) (rtypes : SchemaList) : List JSVal → List Event × Except JSErr (List JSVal × Bool)
  | [] => ([], .ok ([], true))
  | x :: rest =>
    match tryTypes inner rtypes x with
    | (evs, .error e) => (evs, .error e)
    | (evs, .ok none) => (evs, .ok (x :: rest, false))
    | (evs, .ok (some res)) =>
      let x2 := if jsValEq res x then x else res
      match arrayOfLoop inner rtypes rest with
      | (evs2, .error e) => (evs ++ evs2, .error e)
      | (evs2, .ok (rest2, ok)) => (evs ++ evs2, .ok (x2 :: rest2, ok))

/-- Reassembly of an object from its key list and mutated value list
(the `objectOf` loop writes values back under their original keys). -/
def jsFieldsFromKeysVals : List String → List JSVal → JSFields
  | k :: ks, v :: vs => .cons k v (jsFieldsFromKeysVals ks vs)
  | _, _ => .nil

/-- The combinator `_shapeOf_arrayOf`: at least one type argument is
required (a construction-time error otherwise); a non-array is
rejected; otherwise every element, walked from the last index down, is
matched against the flattened type list in reverse order with the first
match's mutation applied.  The `validShape` flag starts out undefined
and is only assigned inside the loop, so an empty array leaves it
undefined, i.e. falsy. -/
def shapeOf_arrayOfF (inner : InnerEval) (args : SchemaList) (v : JSVal) :
    List Event × Except JSErr (Option JSVal) :=
  if slLength args + 1 < 2 then
    ([], .error (.configError "arrayOf validator requires at least one argument"))
  else
    let types := jsFlattenArgs args
    match v with
    | .arr es =>
      match arrayOfLoop inner (slReverse types) (jsListToList es).reverse with
      | (evs, .error e) => (evs, .error e)
      | (evs, .ok (relems2, ok)) =>
        let validShape := ok && !(jsListToList es).isEmpty
        (evs, .ok (if validShape then some (.arr (listToJsList relems2.reverse)) else none))
    | _ => ([], .ok none)

/-- The combinator `_shapeOf_objectOf`: same existential rule applied to
the values of an object (or of an array, which passes the source's
`typeof` test), walked from the last key down; the `validShape` flag is
likewise never assigned for a keyless input, so an empty object is
rejected. -/
def shapeOf_objectOfF (inner : InnerEval) (args : SchemaList) (v : JSVal) :
    List Event × Except JSErr (Option JSVal) :=
  if slLength args + 1 < 2 then
    ([], .error (.configError "objectOf validator requires at least one argument"))
  else
    let types := jsFlattenArgs args
    match v with
    | .arr es =>
      match arrayOfLoop inner (slReverse types) (jsListToList es).reverse with
      | (evs, .error e) => (evs, .error e)
      | (evs, .ok (relems2, ok)) =>
        let validShape := ok && !(jsListToList es).isEmpty
        (evs, .ok (if validShape then some (.arr (listToJsList relems2.reverse)) else none))
    | .obj fs =>
      match arrayOfLoop inner (slReverse types) ((jsFieldsToList fs).map Prod.snd).reverse with
      | (evs, .error e) => (evs, .error e)
      | (evs, .ok (rvals2, ok)) =>
        let validShape := ok && !(jsFieldsToList fs).isEmpty
        (evs, .ok (if validShape then
          some (.obj (jsFieldsFromKeysVals ((jsFieldsToList fs).map Prod.fst) rvals2.reverse))
          else none))
    | _ => ([], .ok none)

/-- Strict equality between a captured argument (a schema value) and
the tested JS value, as `_shapeOf_oneOf` uses `===`: scalar literals
compare by value; an argument that is an object, array, function,
regexp or validator is a different reference from the tested value, so
the comparison is false. -/
def schemaValStrictEq : Schema → JSVal → Bool
  | .lit p, .prim p2 => primEq p p2
  | _, _ => false

/-- Reverse scan of the literal list of `oneOf`. -/
def oneOfScan : SchemaList → JSVal → Option JSVal
  | .nil, _ => none
  | .cons t ttl, v => if schemaValStrictEq t v then some v else oneOfScan ttl v

/-- The combinator `_shapeOf_oneOf`: the value must be strictly equal
to one of the flattened literal arguments, scanned from the last one
down. -/
def shapeOf_oneOfF (args : SchemaList) (v : JSVal) : Except JSErr (Option JSVal) :=
  if slLength args + 1 < 2 then
    .error (.configError "oneOf validator requires at least one argument")
  else
    .ok (oneOfScan (slReverse (jsFlattenArgs args)) v)

/-- Forward scan of the type list of `oneOfType`. -/
def oneOfTypeLoop (innerExact : InnerExact) : SchemaList → JSVal → List Event × Except JSErr (Option JSVal)
  | .nil, _ => ([], .ok none)
  | .cons t ttl, v =>
    match innerExact v t with
    | (evs, .error e) => (evs, .error e)
    | (evs, .ok true) => (evs, .ok (some v))
    | (evs, .ok false) =>
      match oneOfTypeLoop innerExact ttl v with
      | (evs2, r2) => (evs ++ evs2, r2)

/-- The combinator `_shapeOf_oneOfType`: the value is matched under
exact-shape rules against each type in declaration order, the first
success accepting it unchanged. -/
def shapeOf_oneOfTypeF (innerExact : InnerExact) (args : SchemaList) (v : JSVal) :
    List Event × Except JSErr (Option JSVal) :=
  if slLength args + 1 < 2 then
    ([], .error (.configError "oneOfType validator requires at least one argument"))
  else
    oneOfTypeLoop innerExact (jsFlattenArgs args) v

/-- Forward scan of the type list of `eachOf`. -/
def eachOfLoop (innerExact : InnerExact) : SchemaList → JSVal → List Event × Except JSErr (Option JSVal)
  | .nil, v => ([], .ok (some v))
  | .cons t ttl, v =>
    match innerExact v t with
    | (evs, .error e) => (evs, .error e)
    | (evs, .ok false) => (evs, .ok none)
    | (evs, .ok true) =>
      match eachOfLoop innerExact ttl v with
      | (evs2, r2) => (evs ++ evs2, r2)

/-- The combinator `_shapeOf_eachOf`: the value must match every listed
type under exact-shape rules; the first failure rejects it, full
success returns it unchanged. -/
def shapeOf_eachOfF (innerExact : InnerExact) (args : SchemaList) (v : JSVal) :
    List Event × Except JSErr (Option JSVal) :=
  if slLength args + 1 < 2 then
    ([], .error (.configError "eachOfType validator requires at least one argument"))
  else
    eachOfLoop innerExact (jsFlattenArgs args) v

/-- The pattern refinement `_shapeOf_string_pattern`: with one captured
argument the pattern is a string (compiled with empty flags) or a
regexp (used as is); with two captured arguments the second is a flags
string overriding the regexp's own; any other pattern argument or
argument count raises.  The compiled regex is applied through the
oracle. -/
def shapeOf_string_patternF (rt : RegexTest) (args : SchemaList) (v : JSVal) :
    Except JSErr (Option JSVal) :=
  match args with
  | .cons p .nil =>
    match p with
    | .lit (.str s) => .ok (if rt s "" (jsDisplayString v) then some v else none)
    | .regexp src fl => .ok (if rt src fl (jsDisplayString v) then some v else none)
    | _ => .error (.configError "shapeOf.string.pattern only accepts strings and RegExp objects as an argument")
  | .cons p (.cons f .nil) =>
    match f with
    | .lit (.str flags) =>
      match p with
      | .lit (.str s) => .ok (if rt s flags (jsDisplayString v) then some v else none)
      | .regexp src _ => .ok (if rt src flags (jsDisplayString v) then some v else none)
      | _ => .error (.configError "shapeOf.string.pattern only accepts strings and RegExp objects as an argument")
    | _ => .error (.configError "non-string regex flags not modelled")
  | _ => .error (.configError "String pattern validator requires between one and two arguments")

/-- Dispatch of a chain link's callback (`link._callback(...args, obj)`). -/
def runCallbackF (rt : RegexTest) (inner : InnerEval) (innerExact : InnerExact)
    (cb : Callback) (args : SchemaList) (v : JSVal) :
    List Event × Except JSErr (Option JSVal) :=
  match cb with
  | .number => ([], .ok (shapeOf_number v))
  | .numberRange => ([], .ok (shapeOf_number_range (slGet args 0) (slGet args 1) v))
  | .greaterThanOrEqualTo => ([], .ok (shapeOf_gte (slGet args 0) v))
  | .lessThanOrEqualTo => ([], .ok (shapeOf_lte (slGet args 0) v))
  | .integer => ([], .ok (shapeOf_integer v))
  | .string => ([], .ok (shapeOf_string v))
  | .stringPattern => ([], shapeOf_string_patternF rt args v)
  | .stringEmail =>
    ([], .ok (if rt shapeOf_string_email_regex "" (jsDisplayString v) then some v else none))
  | .stringIPv4 =>
    ([], .ok (if rt shapeOf_string_ipv4_regex "" (jsDisplayString v) then some v else none))
  | .stringIPv6 =>
    ([], .ok (if rt shapeOf_string_ipv6_regex "" (jsDisplayString v) then some v else none))
  | .length => ([], shapeOf_length args v)
  | .array => ([], .ok (shapeOf_array v))
  | .bool => ([], .ok (shapeOf_bool v))
  | .object => ([], .ok (shapeOf_object v))
  | .nullType => ([], .ok (shapeOf_null v))
  | .primitive => ([], .ok (shapeOf_primitive v))
  | .arrayOf => shapeOf_arrayOfF inner args v
  | .objectOf => shapeOf_objectOfF inner args v
  | .oneOf => ([], shapeOf_oneOfF args v)
  | .oneOfType => shapeOf_oneOfTypeF innerExact args v
  | .eachOf => shapeOf_eachOfF innerExact args v

/-- Core evaluation of one schema node (the body of `_shouldBe` between
its dispatch and its result pipeline).  The result carries the verdict
(`none` is the absent signal) together with the value the evaluated
variable holds afterwards (mutations applied in place by the array and
object branches). -/
def evalNodeF (inner : InnerEval) (innerFresh : InnerEval) (innerExact : InnerExact)
    (rt : RegexTest) (opts : Options) (v : JSVal) : Schema →
    List Event × Except JSErr (Option JSVal × JSVal)
  | .validator _ _ chain =>
    match execValidator (runCallbackF rt innerFresh innerExact) chain v with
    | (evs, .error e) => (evs, .error e)
    | (evs, .ok ro) => (evs, .ok (ro, v))
  | .func f => ([], .ok (f v, v))
  | .arrLit selems =>
    match v with
    | .prim .null => ([], .error (.typeError "Cannot read properties of null (reading length)"))
    | .arr xs =>
      if slLength selems = jsListLength xs then
        match arrayLitLoop inner selems xs with
        | (evs, .error e) => (evs, .error e)
        | (evs, .ok (xs2, ok)) =>
          (evs, .ok ((if ok then some (.arr xs2) else none), .arr xs2))
      else ([], .ok (none, v))
    | .prim (.str s) =>
      if slLength selems = s.length then
        match stringArrayLoop inner selems s.toList with
        | (evs, .error e) => (evs, .error e)
        | (evs, .ok ok) => (evs, .ok ((if ok then some v else none), v))
      else ([], .ok (none, v))
    | .obj _ => ([], .ok (none, v))
    | .prim _ => ([], .ok (none, v))
  | .objMap fields => objectMatchF inner opts v fields
  | .regexp _ _ => objectMatchF inner opts v .nil
  | .lit .null =>
    match v with
    | .arr _ => ([], .error (.typeError "Cannot convert undefined or null to object"))
    | .obj _ => ([], .error (.typeError "Cannot convert undefined or null to object"))
    | .prim _ => ([], .ok (none, v))
  | .lit p => ([], .ok ((if jsValEq v (.prim p) then some v else none), v))

/-- The result pipeline at the end of `_shouldBe`: failure callbacks,
success callbacks, the throw-on-failure raise (custom payload first,
generic error otherwise), completion callbacks only when no raise
happened, then the output shaping requested by the options
(`returnsObject` first, then `returnsResults`, then the boolean). -/
def finishPipeline (opts : Options) (core : List Event × Except JSErr (Option JSVal × JSVal)) :
    List Event × Except JSErr RtnVal :=
  match core with
  | (evs, .error e) => (evs, .error e)
  | (evs, .ok (rtn, objAfter)) =>
    let result := rtn.isSome
    let evs2 := evs ++ (if result then [] else opts.onInvalid.map Event.invalidCb)
      ++ (if result then opts.onValid.map Event.validCb else [])
    if opts.throwsOnInvalid ∧ ¬ result then
      (evs2, .error (match opts.errorObj with
        | some eo => .custom eo
        | none => .invalidShape))
    else
      let evs3 := evs2 ++ opts.onComplete.map Event.completeCb
      if opts.returnsObject then (evs3, .ok (.objRes rtn))
      else if opts.returnsResults then (evs3, .ok (.resultsRes result objAfter))
      else (evs3, .ok (.boolRes result))

/-- The full evaluation `_shouldBe(options, schema)` with fuel: on entry
the node is evaluated (recursive evaluations run the same pipeline on
options extended with mutated-value mode inheriting all toggles and
callbacks, while combinator-internal evaluations run on fresh default
options), and the result pipeline produces the trace, raise and shaped
output. -/
def shouldBeRun (rt : RegexTest) : Nat → Options → JSVal → Schema → List Event × Except JSErr RtnVal
  | 0, _, _, _ => ([], .error .fuelOut)
  | n+1, opts, v, s =>
    finishPipeline opts
      (evalNodeF
        (fun v2 s2 =>
          match shouldBeRun rt n { opts with returnsObject := true } v2 s2 with
          | (evs, .error e) => (evs, .error e)
          | (evs, .ok r) => (evs, .ok (rtnAsObj r)))
        (fun v2 s2 =>
          match shouldBeRun rt n freshObjOpts v2 s2 with
          | (evs, .error e) => (evs, .error e)
          | (evs, .ok r) => (evs, .ok (rtnAsObj r)))
        (fun v2 s2 =>
          match shouldBeRun rt n freshExactOpts v2 s2 with
          | (evs, .error e) => (evs, .error e)
          | (evs, .ok r) => (evs, .ok (rtnTruthy r)))
        rt opts v s)

/-- The inherited-options inner evaluator used by the array and object
branches at fuel `n`. -/
def innerInheritedAt (rt : RegexTest) (n : Nat) (opts : Options) : InnerEval :=
  fun v2 s2 =>
    match shouldBeRun rt n { opts with returnsObject := true } v2 s2 with
    | (evs, .error e) => (evs, .error e)
    | (evs, .ok r) => (evs, .ok (rtnAsObj r))

/-- The fresh mutated-value inner evaluator used by the combinator
callbacks at fuel `n`. -/
def innerFreshAt (rt : RegexTest) (n : Nat) : InnerEval :=
  fun v2 s2 =>
    match shouldBeRun rt n freshObjOpts v2 s2 with
    | (evs, .error e) => (evs, .error e)
    | (evs, .ok r) => (evs, .ok (rtnAsObj r))

/-- The fresh exact-mode inner evaluator used by `oneOfType` / `eachOf`
at fuel `n`. -/
def innerExactAt (rt : RegexTest) (n : Nat) : InnerExact :=
  fun v2 s2 =>
    match shouldBeRun rt n freshExactOpts v2 s2 with
    | (evs, .error e) => (evs, .error e)
    | (evs, .ok r) => (evs, .ok (rtnTruthy r))

/-- The core evaluation at fuel `n` with its recursive evaluators
spelled out. -/
def evalCoreAt (rt : RegexTest) (n : Nat) (opts : Options) (v : JSVal) (s : Schema) :
    List Event × Except JSErr (Option JSVal × JSVal) :=
  evalNodeF (innerInheritedAt rt n opts) (innerFreshAt rt n) (innerExactAt rt n) rt opts v s

/-- Unfolding of one fuel step of the evaluation into the core
evaluation followed by the result pipeline. -/
theorem shouldBeRun_succ (rt : RegexTest) (n : Nat) (opts : Options) (v : JSVal) (s : Schema) :
    shouldBeRun rt (n+1) opts v s = finishPipeline opts (evalCoreAt rt n opts v s) := rfl

/-- The negated terminal `shouldNotBe` / `isNot`, defined in
`_buildActions` as `(obj, schema) => !_shouldBe(obj, schema)` bound to
the same accumulated options. -/
def shouldNotBeRun (rt : RegexTest) (fuel : Nat) (opts : Options) (v : JSVal) (s : Schema) :
    List Event × Except JSErr Bool :=
  match shouldBeRun rt fuel opts v s with
  | (evs, .error e) => (evs, .error e)
  | (evs, .ok r) => (evs, .ok (!(rtnTruthy r)))

/-! ## Concrete instances used by closed statements -/

/-- Oracle instance refusing every regex match, used to instantiate the
universally quantified oracle in closed concrete statements (none of
which involve a regex validator). -/
def rtNone : RegexTest := fun _ _ _ => false

/-- The registered `shapeOf.string` validator as a schema node. -/
def stringValidatorS : Schema :=
  .validator "shapeOf.string" false (.cons "shapeOf.string" .nil .string .nil)

/-- The registered `shapeOf.number` validator as a schema node. -/
def numberValidatorS : Schema :=
  .validator "shapeOf.number" false (.cons "shapeOf.number" .nil .number .nil)

/-- The specialized chain `shapeOf.string.size(3, 25)` as a schema node
(the call chain a real `shapeOf.string.ofSize(3, 25)` call builds). -/
def stringSize325S : Schema :=
  .validator "shapeOf.string.size" false
    (.cons "shapeOf.string" .nil .string
      (.cons "shapeOf.string.size"
        (.cons (.lit (.num 3)) (.cons (.lit (.num 25)) .nil)) .length .nil))

/-- The combinator chain `shapeOf.arrayOf(shapeOf.string)` as a schema
node. -/
def arrayOfStringS : Schema :=
  .validator "shapeOf.arrayOf" false
    (.cons "shapeOf.arrayOf" (.cons stringValidatorS .nil) .arrayOf .nil)

/-! ## Claim C2 -/

/-- Claim C2: the specification says a top-level evaluation without the
throw-on-failure toggle never raises on a mere shape mismatch, and in
particular that a non-conforming value such as `null` evaluated against
an array-literal schema returns a failure rather than raising.  The
code contradicts this: the array branch of `_shouldBe` reads
`obj.length` before any guard, so `null` (whose property reads throw)
raises a `TypeError` under default options, for every array-literal
schema and at any fuel. -/
theorem c2_null_vs_array_literal_raises (rt : RegexTest) (n : Nat) (selems : SchemaList) :
    shouldBeRun rt (n+1) defaultOpts (.prim .null) (.arrLit selems)
      = ([], .error (.typeError "Cannot read properties of null (reading length)")) := rfl

/-! ## Claim C3 -/

/-- Claim C3: deserialization's version gate is claimed to succeed
exactly when the envelope's version precedes or equals the running
compatible-schema-version under standard semantic-version precedence,
the specification naming `1.x.y` against a running `2.0.0` as
compatible.  The transcription `isCompatibileVersion` of
`_isCompatibileVersion` refutes this: with running version `2.0.0` and
envelope version `1.5.7` the spec-side comparator `semverLeSpec` calls
the pair compatible, while the code's formula
`c2 >= v2 || c1 > v1` (which never consults the major components)
returns `false`, so `shapeOf.deserialize` would raise its
incompatible-schema-versions error.  This also contradicts the
function's own documentation line, which promises `true` whenever the
current version is equal to or greater than the compatible version. -/
theorem c3_version_gate_contradicts_semver :
    isCompatibileVersion "2.0.0" "1.5.7" = .ok false
    ∧ semverLeSpec (1, 5, 7) (2, 0, 0) = true := by
  exact ⟨rfl, by decide⟩

/-! ## Claim C4 -/

/-- Claim C4: the primitive validator is claimed to accept exactly the
strings, booleans, numbers and `null` — in particular the empty string,
`false` and `0`.  The transcription `shapeOf_primitive` of
`_shapeOf_primitive` refutes the claim: because the source chains the
four class checks with JS `||`, a defined but falsy result (`''`,
`false`, `0`) is discarded and falls through to the final `null` check,
so those three values are rejected, while truthy members of each class
and `null` itself are accepted as documented. -/
theorem c4_primitive_rejects_falsy_primitives :
    shapeOf_primitive (.prim (.str "")) = none
    ∧ shapeOf_primitive (.prim (.bool false)) = none
    ∧ shapeOf_primitive (.prim (.num 0)) = none
    ∧ shapeOf_primitive (.prim (.str "a")) = some (.prim (.str "a"))
    ∧ shapeOf_primitive (.prim (.bool true)) = some (.prim (.bool true))
    ∧ shapeOf_primitive (.prim (.num 1)) = some (.prim (.num 1))
    ∧ shapeOf_primitive (.prim .null) = some (.prim .null) := by
  refine ⟨rfl, rfl, ?_, rfl, rfl, ?_, rfl⟩ <;>
    simp [shapeOf_primitive, jsOr, shapeOf_string, shapeOf_bool, shapeOf_number,
      shapeOf_null, jsTruthy]

/-! ## Claim C5 -/

/-- Claim C5 counterexample: the claim says an array input immediately
fails object-map matching, but the guard of `_object` only rejects
non-`'object'` `typeof`s and `null`, and `typeof [] === 'object'`; the
empty array evaluated against the empty object-map schema is accepted
outright. -/
theorem c5_array_accepted_by_object_map :
    shouldBeRun rtNone 1 defaultOpts (.arr .nil) (.objMap .nil)
      = ([], .ok (.boolRes true)) := rfl

/-- Claim C5 as amended: for every object-map schema, matching a value
that is not of JS object type or is `null` — i.e. any primitive,
including `null`, but not an array — fails immediately, before any
declared field is examined: the result is the absent signal with no
recursive evaluation and no callback event, for every field list, every
option bundle and every inner evaluator; the same holds one level up
through the engine's dispatch.  (Arrays are not rejected: they pass the
`typeof` guard and proceed to the field checks, as the counterexample
shows.) -/
theorem c5_non_object_or_null_fails_immediately (inner : InnerEval) (rt : RegexTest)
    (n : Nat) (opts : Options) (p : Prim) (fields : SchemaFields) :
    objectMatchF inner opts (.prim p) fields = ([], .ok (none, .prim p))
    ∧ evalCoreAt rt n opts (.prim p) (.objMap fields) = ([], .ok (none, .prim p)) := ⟨rfl, rfl⟩

/-! ## Claim C7 -/

/-- Claim C7: for every value, schema and accumulated option bundle and
at every fuel, the negated terminal call (`shouldNotBe` / `isNot`)
produces exactly the JS boolean negation of what the plain terminal
call (`shouldBe` / `is`) produces on the same inputs: the same callback
trace, the same raise when one occurs, and otherwise the negated
truthiness of the plain call's shaped result. -/
theorem c7_shouldNotBe_negates_shouldBe (rt : RegexTest) (fuel : Nat) (opts : Options)
    (v : JSVal) (s : Schema) :
    shouldNotBeRun rt fuel opts v s
      = ((shouldBeRun rt fuel opts v s).1,
         (shouldBeRun rt fuel opts v s).2.map (fun x => !(rtnTruthy x))) := by
  unfold shouldNotBeRun
  rcases h : shouldBeRun rt fuel opts v s with ⟨evs, r⟩
  cases r <;> simp [Except.map]

/-! ## Claim C10 -/

/-- Claim C10: for every nonempty list of type arguments and every
inner evaluator, the `objectOf` combinator applied to the empty object
returns the absent signal: the source's `validShape` flag is only ever
assigned inside the loop over the input's keys, so with no keys it
stays `undefined` and the final `if (validShape)` fails.  The same
verdict is reached through the callback dispatch of the engine. -/
theorem c10_objectOf_rejects_empty_object (inner : InnerEval) (innerExact : InnerExact)
    (rt : RegexTest) (args : SchemaList) (h : 1 ≤ slLength args) :
    shapeOf_objectOfF inner args (.obj .nil) = ([], .ok none)
    ∧ runCallbackF rt inner innerExact .objectOf args (.obj .nil) = ([], .ok none) := by
  have hlt : ¬ (slLength args + 1 < 2) := by omega
  constructor
  · simp [shapeOf_objectOfF, hlt, jsFieldsToList, arrayOfLoop]
  · simp [runCallbackF, shapeOf_objectOfF, hlt, jsFieldsToList, arrayOfLoop]

/-- Witness for claim C10 at the concrete type list
`[shapeOf.string]`. -/
theorem c10_objectOf_rejects_empty_object_witness :
    1 ≤ slLength (.cons stringValidatorS .nil)
    ∧ shapeOf_objectOfF (innerFreshAt rtNone 3) (.cons stringValidatorS .nil) (.obj .nil)
        = ([], .ok none) := by
  refine ⟨by decide, ?_⟩
  exact (c10_objectOf_rejects_empty_object (innerFreshAt rtNone 3) (innerExactAt rtNone 3)
    rtNone (.cons stringValidatorS .nil) (by decide)).1

/-! ## Claim C9 -/

/-- Claim C9: attaching a sub-validator to a parent whose optional flag
is set (`_attachSubValidator`, which toggles `_optional` on the copied
sub-validator options when `parent._optional` holds) always yields a
sub-validator carrying the optional flag; invoking that sub-validator
with arguments (`_validatorArgHandler` copies all bindings) preserves
the flag; and consequently an object-map schema whose field holds such
an invoked refinement passes matching when the field is absent from the
input object, for every key, parent, child, argument list, oracle and
fuel. -/
theorem c9_optional_propagates_to_attached_subvalidators
    (parent child : ValObj) (args : SchemaList) (sub : ValObj) (k : String)
    (rt : RegexTest) (n : Nat)
    (hparent : parent.optional = true)
    (hinv : invokeValidator (attachSubValidator parent child) args = .ok sub) :
    (attachSubValidator parent child).optional = true
    ∧ sub.optional = true
    ∧ shouldBeRun rt (n+1) defaultOpts (.obj .nil)
        (.objMap (.cons k (valObjSchema sub) .nil)) = ([], .ok (.boolRes true)) := by
  have hopt : (attachSubValidator parent child).optional = true := by
    simp [attachSubValidator, hparent]
  have hsub : sub.optional = true := by
    unfold invokeValidator at hinv
    by_cases hle : slLength args < (attachSubValidator parent child).requiredArgs
    · simp [hle] at hinv
    · simp [hle] at hinv
      rw [← hinv]
      exact hopt
  refine ⟨hopt, hsub, ?_⟩
  rw [shouldBeRun_succ]
  simp [evalCoreAt, evalNodeF, objectMatchF, sfReverse, sfReverseAux,
    objectFieldsLoop, jsPropGet, jsFieldsGet, valObjSchema, schemaOptional, hsub,
    finishPipeline, defaultOpts, Option.isSome]

/-- The registry row of `shapeOf.optional.string` (parent in the
witness below). -/
def optStringEntry : RegEntry :=
  { name := "shapeOf.optional.string"
    callback := .string
    parent := none
    aliases := []
    requiredArgs := 0
    optional := true }

/-- The registry row of `shapeOf.optional.string.size` (child in the
witness below). -/
def optStringSizeEntry : RegEntry :=
  { name := "shapeOf.optional.string.size"
    callback := .length
    parent := some "shapeOf.optional.string"
    aliases := ["shapeOf.string.ofSize"]
    requiredArgs := 1
    optional := true }

/-- The validator object obtained by attaching the length refinement to
the optional string validator and invoking it with `(3, 25)`. -/
def optStringSize325Obj : ValObj :=
  { name := "shapeOf.optional.string.size"
    optional := true
    chain := .cons "shapeOf.optional.string" .nil .string
      (.cons "shapeOf.optional.string.size"
        (.cons (.lit (.num 3)) (.cons (.lit (.num 25)) .nil)) .length .nil)
    requiredArgs := 1 }

/-- Witness for claim C9: the optional string validator
(`shapeOf.optional.string`) as parent, the length refinement as child,
invoked with the arguments `(3, 25)`; the schema
`{title: optional.string.size(3,25)}` accepts the empty object. -/
theorem c9_optional_propagates_witness :
    (registryObj optStringEntry).optional = true
    ∧ invokeValidator
        (attachSubValidator (registryObj optStringEntry) (registryObj optStringSizeEntry))
        (.cons (.lit (.num 3)) (.cons (.lit (.num 25)) .nil))
      = .ok optStringSize325Obj
    ∧ shouldBeRun rtNone 1 defaultOpts (.obj .nil)
        (.objMap (.cons "title" (valObjSchema optStringSize325Obj) .nil))
      = ([], .ok (.boolRes true)) := by
  refine ⟨rfl, rfl, ?_⟩
  exact (c9_optional_propagates_to_attached_subvalidators
    (registryObj optStringEntry) (registryObj optStringSizeEntry)
    (.cons (.lit (.num 3)) (.cons (.lit (.num 25)) .nil))
    optStringSize325Obj "title" rtNone 0 rfl rfl).2.2

/-! ## Claim C8 -/

/-- Options of the C8 counterexample: throw-on-failure with a
completion callback `0` and a failure callback `1`. -/
def c8TraceOpts : Options :=
  { throwsOnInvalid := true
    onComplete := [0]
    onInvalid := [1] }

/-- Claim C8 counterexample: the claim says no completion callback is
invoked on a failed throwing evaluation.  But `_shouldBe` spreads the
accumulated options — including the completion callbacks and the throw
toggle — into its recursive calls, and each successful nested
evaluation runs its own full pipeline.  Evaluating
`{a: 'x', b: 1}` against the schema `{b: string, a: string}` (whose
reversed field iteration checks `a` first) with throw-on-failure, a
completion callback `0` and a failure callback `1`: the nested success
on `a` fires the completion callback, then the nested failure on `b`
fires the failure callback and raises — so the trace shows a completion
callback invocation before the raise of a failed throwing
evaluation. -/
theorem c8_completion_callback_fires_before_raise :
    shouldBeRun rtNone 5 c8TraceOpts
      (.obj (.cons "a" (.prim (.str "x")) (.cons "b" (.prim (.num 1)) .nil)))
      (.objMap (.cons "b" stringValidatorS (.cons "a" stringValidatorS .nil)))
      = ([.completeCb 0, .invalidCb 1], .error .invalidShape) := rfl

/-- Claim C8 as amended: when throw-on-failure is toggled and the
evaluation of a schema node itself completes with a failure verdict
(rather than propagating a raise from a nested evaluation), that
invocation fires its failure callbacks, then raises — the exact
caller-supplied payload object unwrapped when one was given, the
generic invalid-shape error otherwise — and none of its own completion
callbacks fire after the raise; completion callbacks may however
already have fired inside nested successful sub-evaluations, as the
counterexample records. -/
theorem c8_raise_after_failure_callbacks_before_completion
    (rt : RegexTest) (n : Nat) (opts : Options) (v m : JSVal) (s : Schema)
    (evs : List Event)
    (hthrow : opts.throwsOnInvalid = true)
    (hcore : evalCoreAt rt n opts v s = (evs, .ok (none, m))) :
    shouldBeRun rt (n+1) opts v s
      = (evs ++ opts.onInvalid.map Event.invalidCb,
         .error (match opts.errorObj with
           | some eo => .custom eo
           | none => .invalidShape)) := by
  rw [shouldBeRun_succ, hcore]
  simp [finishPipeline, hthrow]

/-- Options of the C8 witness: throw-on-failure with a custom payload,
one failure callback and one completion callback. -/
def c8WitnessOpts : Options :=
  { throwsOnInvalid := true
    errorObj := some (.prim (.str "boom"))
    onInvalid := [7]
    onComplete := [9] }

/-- Witness for claim C8 at a concrete failing throwing evaluation with
a custom error payload: the number `1` against the string validator
with payload `'boom'`, a failure callback `7` and a completion callback
`9`; the failure callback fires, the exact payload is thrown, the
completion callback does not fire. -/
theorem c8_raise_after_failure_callbacks_witness :
    shouldBeRun rtNone 2 c8WitnessOpts (.prim (.num 1)) stringValidatorS
      = ([.invalidCb 7], .error (.custom (.prim (.str "boom")))) := by
  exact c8_raise_after_failure_callbacks_before_completion rtNone 1 c8WitnessOpts
    (.prim (.num 1)) (.prim (.num 1)) stringValidatorS [] rfl rfl

/-! ## Claim C6 -/

/-- Acceptance of a value by a type schema under an inner evaluator:
the mutated-value call returns a present result. -/
def innerAccepts (inner : InnerEval) (x : JSVal) (t : Schema) : Prop :=
  ∃ evs w, inner x t = (evs, .ok (some w))

/-- Membership distributes over schema-list concatenation. -/
theorem slMem_append (t : Schema) : ∀ (a b : SchemaList),
    slMem t (slAppend a b) ↔ slMem t a ∨ slMem t b
  | .nil, b => by simp [slAppend, slMem]
  | .cons x xs, b => by
    simp [slAppend, slMem, slMem_append t xs b, or_assoc]

/-- Membership is invariant under schema-list reversal. -/
theorem slMem_reverse (t : Schema) : ∀ (l : SchemaList),
    slMem t (slReverse l) ↔ slMem t l
  | .nil => Iff.rfl
  | .cons x xs => by
    simp [slReverse, slMem_append, slMem, slMem_reverse t xs, or_comm]

/-- Under elementwise normality (no raise), the reverse type scan of
`arrayOf` yields a defined result, and yields a present one exactly
when some scanned type accepts the element. -/
theorem tryTypes_spec (inner : InnerEval) (x : JSVal) : ∀ (rtypes : SchemaList),
    (∀ t, slMem t rtypes → ∃ evs r, inner x t = (evs, .ok r)) →
    ∃ evs ro, tryTypes inner rtypes x = (evs, .ok ro)
      ∧ (ro.isSome = true ↔ ∃ t, slMem t rtypes ∧ innerAccepts inner x t)
  | .nil, _ => by
    refine ⟨[], none, rfl, ?_⟩
    simp [slMem]
  | .cons t ttl, hnorm => by
    obtain ⟨evs, r, hr⟩ := hnorm t (Or.inl rfl)
    obtain ⟨evs2, ro2, h2, hiff2⟩ :=
      tryTypes_spec inner x ttl (fun t2 h2 => hnorm t2 (Or.inr h2))
    cases r with
    | some res =>
      refine ⟨evs, some res, ?_, ?_⟩
      · simp [tryTypes, hr]
      · simp only [Option.isSome_some, true_iff]
        exact ⟨t, Or.inl rfl, evs, res, hr⟩
    | none =>
      refine ⟨evs ++ evs2, ro2, ?_, ?_⟩
      · simp [tryTypes, hr, h2]
      · rw [hiff2]
        constructor
        · rintro ⟨t2, h2m, hacc⟩
          exact ⟨t2, Or.inr h2m, hacc⟩
        · rintro ⟨t2, h2m, hacc⟩
          rcases h2m with rfl | h2m
          · obtain ⟨evsw, w, hw⟩ := hacc
            rw [hr] at hw
            simp at hw
          · exact ⟨t2, h2m, hacc⟩

/-- Under elementwise normality, the element loop shared by `arrayOf`
and `objectOf` completes without a raise and its flag is true exactly
when every element is accepted by some type. -/
theorem arrayOfLoop_spec (inner : InnerEval) (rtypes : SchemaList) :
    ∀ (xs : List JSVal),
    (∀ x ∈ xs, ∀ t, slMem t rtypes → ∃ evs r, inner x t = (evs, .ok r)) →
    ∃ evs l ok, arrayOfLoop inner rtypes xs = (evs, .ok (l, ok))
      ∧ (ok = true ↔ ∀ x ∈ xs, ∃ t, slMem t rtypes ∧ innerAccepts inner x t)
  | [], _ => ⟨[], [], true, rfl, by simp⟩
  | x :: rest, hnorm => by
    obtain ⟨evs, ro, htry, hiff⟩ :=
      tryTypes_spec inner x rtypes (hnorm x (List.mem_cons_self x rest))
    obtain ⟨evs2, l2, ok2, h2, hiff2⟩ :=
      arrayOfLoop_spec inner rtypes rest
        (fun y hy t ht => hnorm y (List.mem_cons_of_mem x hy) t ht)
    cases ro with
    | none =>
      refine ⟨evs, x :: rest, false, ?_, ?_⟩
      · simp [arrayOfLoop, htry]
      · simp only [Bool.false_eq_true, false_iff]
        intro hall
        have hx : (none : Option JSVal).isSome = true :=
          hiff.mpr (hall x (List.mem_cons_self x rest))
        simp at hx
    | some res =>
      refine ⟨evs ++ evs2, (if jsValEq res x then x else res) :: l2, ok2, ?_, ?_⟩
      · simp [arrayOfLoop, htry, h2]
      · rw [hiff2]
        constructor
        · intro hall y hy
          rcases List.mem_cons.mp hy with rfl | hy2
          · exact hiff.mp (by simp)
          · exact hall y hy2
        · intro hall y hy
          exact hall y (List.mem_cons_of_mem x hy)

/-- Claim C6 as amended: for every inner evaluator, every list of one
or more type arguments and every value, as long as no element
evaluation raises, the `arrayOf` combinator accepts the value exactly
when it is an array, it is nonempty, and every element matches at least
one of the flattened type arguments; any non-array value is rejected
outright.  The claim's vacuous acceptance of the empty list fails on
the code: the `validShape` flag is only assigned inside the element
loop, so an empty array leaves it undefined and is rejected (see the
counterexample). -/
theorem c6_arrayOf_accepts_iff_nonempty_and_all_match (inner : InnerEval)
    (args : SchemaList) (es : JSList)
    (h1 : 1 ≤ slLength args)
    (hnorm : ∀ x ∈ jsListToList es, ∀ t, slMem t (jsFlattenArgs args) →
      ∃ evs r, inner x t = (evs, .ok r)) :
    ((∃ evs w, shapeOf_arrayOfF inner args (.arr es) = (evs, .ok (some w)))
      ↔ (jsListToList es ≠ []
          ∧ ∀ x ∈ jsListToList es, ∃ t, slMem t (jsFlattenArgs args) ∧ innerAccepts inner x t))
    ∧ (∀ p : Prim, shapeOf_arrayOfF inner args (.prim p) = ([], .ok none))
    ∧ (∀ fs : JSFields, shapeOf_arrayOfF inner args (.obj fs) = ([], .ok none)) := by
  have hguard : ¬ (slLength args + 1 < 2) := by omega
  refine ⟨?_, ?_, ?_⟩
  · have hnorm2 : ∀ x ∈ (jsListToList es).reverse, ∀ t,
        slMem t (slReverse (jsFlattenArgs args)) → ∃ evs r, inner x t = (evs, .ok r) := by
      intro x hx t ht
      exact hnorm x (List.mem_reverse.mp hx) t ((slMem_reverse t _).mp ht)
    obtain ⟨evs, l, ok, hloop, hiff⟩ :=
      arrayOfLoop_spec inner (slReverse (jsFlattenArgs args)) (jsListToList es).reverse hnorm2
    constructor
    · rintro ⟨evs2, w, hw⟩
      simp only [shapeOf_arrayOfF, if_neg hguard, hloop] at hw
      by_cases hvs : (ok && !(jsListToList es).isEmpty) = true
      · obtain ⟨hok, hne⟩ := Bool.and_eq_true_iff.mp hvs
        refine ⟨by simpa using hne, ?_⟩
        intro x hx
        obtain ⟨t, ht, hacc⟩ := hiff.mp hok x (List.mem_reverse.mpr hx)
        exact ⟨t, (slMem_reverse t _).mp ht, hacc⟩
      · rw [if_neg hvs] at hw
        simp at hw
    · rintro ⟨hne, hall⟩
      have hok : ok = true := by
        apply hiff.mpr
        intro x hx
        obtain ⟨t, ht, hacc⟩ := hall x (List.mem_reverse.mp hx)
        exact ⟨t, (slMem_reverse t _).mpr ht, hacc⟩
      have hvs : (ok && !(jsListToList es).isEmpty) = true := by
        simp [hok, hne]
      refine ⟨evs, .arr (listToJsList l.reverse), ?_⟩
      simp only [shapeOf_arrayOfF, if_neg hguard, hloop, if_pos hvs]
  · intro p
    simp only [shapeOf_arrayOfF, if_neg hguard]
  · intro fs
    simp only [shapeOf_arrayOfF, if_neg hguard]

/-- Claim C6 counterexample: `arrayOf(shapeOf.string)` applied to the
empty array returns the absent signal (and the full evaluation returns
`false`), refuting the claimed vacuous acceptance of the empty list. -/
theorem c6_arrayOf_rejects_empty_array :
    shapeOf_arrayOfF (innerFreshAt rtNone 4) (.cons stringValidatorS .nil) (.arr .nil)
        = ([], .ok none)
    ∧ shouldBeRun rtNone 5 defaultOpts (.arr .nil) arrayOfStringS
        = ([], .ok (.boolRes false)) := ⟨rfl, rfl⟩

/-- Witness for claim C6 at the concrete inputs
`arrayOf(shapeOf.number)` and `[1, 2]`: the amended equivalence applied
right-to-left yields acceptance. -/
theorem c6_arrayOf_accepts_witness :
    ∃ evs w, shapeOf_arrayOfF (innerFreshAt rtNone 3) (.cons numberValidatorS .nil)
      (.arr (.cons (.prim (.num 1)) (.cons (.prim (.num 2)) .nil))) = (evs, .ok (some w)) := by
  have hnorm : ∀ x ∈ jsListToList (.cons (.prim (.num 1)) (.cons (.prim (.num 2)) .nil)),
      ∀ t, slMem t (jsFlattenArgs (.cons numberValidatorS .nil)) →
      ∃ evs r, innerFreshAt rtNone 3 x t = (evs, .ok r) := by
    intro x hx t ht
    simp only [jsFlattenArgs, numberValidatorS, slMem, or_false] at ht
    subst ht
    simp only [jsListToList, List.mem_cons, List.not_mem_nil, or_false] at hx
    rcases hx with rfl | rfl
    · exact ⟨[], some (.prim (.num 1)), rfl⟩
    · exact ⟨[], some (.prim (.num 2)), rfl⟩
  apply (c6_arrayOf_accepts_iff_nonempty_and_all_match (innerFreshAt rtNone 3)
    (.cons numberValidatorS .nil)
    (.cons (.prim (.num 1)) (.cons (.prim (.num 2)) .nil)) (by decide) hnorm).1.mpr
  constructor
  · simp [jsListToList]
  · intro x hx
    refine ⟨numberValidatorS, ?_, ?_⟩
    · simp [jsFlattenArgs, slMem, numberValidatorS]
    · simp only [jsListToList, List.mem_cons, List.not_mem_nil, or_false] at hx
      rcases hx with rfl | rfl
      · exact ⟨[], .prim (.num 1), rfl⟩
      · exact ⟨[], .prim (.num 2), rfl⟩

/-! ## Claim C1

Well-formedness of a schema: the class of schemas over which the
round-trip is stated.  Each condition is forced by a way the codec
actually loses or rejects data: `null` literals make `_serialize` throw
(the counterexample below); plain functions do not survive JSON
stringification; an empty field name makes `_deserialize` throw; a
`toJSON`/`serialize` hook hijacks `_serialize`; regex flags are
letter-only in JS, which the split-on-slash serialization relies on;
and a validator chain must be one the registry replay can rebuild:
every link canonically named and registered, each non-first link
attached under its parent with its canonical property key, and each
link's argument list either empty or meeting the validator's required
argument count. -/

/-- Argument-count admissibility of one link: an empty list is never
re-invoked during replay, a nonempty one must satisfy
`_requiredArgsCount`. -/
def argCountOK (e : RegEntry) (largs : SchemaList) : Bool :=
  match largs with
  | .nil => true
  | _ => decide (e.requiredArgs ≤ slLength largs)

/-- Structural check of the non-first links of a chain, threading the
name and optional flag of the navigated validator object exactly as the
replay does. -/
def chainCheckFrom (st : String × Bool) : LinkList → Option (String × Bool)
  | .nil => some st
  | .cons lname largs cb tl =>
    match lookupRegistry lname with
    | none => none
    | some e =>
      match subEntry st.1 (lastSeg lname) with
      | none => none
      | some e2 =>
        if lname != "" && (e.name == lname) && (cb == e.callback)
            && (e2 == e) && argCountOK e largs
        then chainCheckFrom (e.name, e.optional || st.2) tl
        else none

/-- Structural check of a whole chain, whose first link resolves
directly through the registry. -/
def chainCheckStart : LinkList → Option (String × Bool)
  | .nil => none
  | .cons lname largs cb tl =>
    match lookupRegistry lname with
    | none => none
    | some e =>
      if lname != "" && (e.name == lname) && (cb == e.callback) && argCountOK e largs
      then chainCheckFrom (e.name, e.optional) tl
      else none

mutual
/-- Well-formedness of a schema node (see the section comment). -/
def schemaWFb : Schema → Bool
  | .lit .null => false
  | .lit _ => true
  | .regexp _ flags => flags.toList.all (fun c => c != '/')
  | .func _ => false
  | .arrLit es => schemaListWFb es
  | .objMap fields =>
    !hasToJSONHook fields && !hasSerializeHook fields
      && (sfKeys fields).all (fun k => k != "")
      && decide (sfKeys fields).Nodup
      && schemaFieldsWFb fields
  | .validator name opt chain =>
    (match chainCheckStart chain with
     | some (nm, op) => name == nm && opt == op && name != ""
     | none => false)
      && chainArgsWFb chain
/-- Well-formedness of every node of a schema list. -/
def schemaListWFb : SchemaList → Bool
  | .nil => true
  | .cons s tl => schemaWFb s && schemaListWFb tl
/-- Well-formedness of every field value. -/
def schemaFieldsWFb : SchemaFields → Bool
  | .nil => true
  | .cons _ v tl => schemaWFb v && schemaFieldsWFb tl
/-- Well-formedness of every captured argument of every link. -/
def chainArgsWFb : LinkList → Bool
  | .nil => true
  | .cons _ args _ tl => schemaListWFb args && chainArgsWFb tl
end

/-- Appending an empty chain is the identity. -/
theorem llAppend_nil : ∀ (c : LinkList), llAppend c .nil = c
  | .nil => rfl
  | .cons n a cb tl => by rw [llAppend, llAppend_nil tl]

/-- Chain concatenation is associative. -/
theorem llAppend_assoc : ∀ (a b c : LinkList),
    llAppend (llAppend a b) c = llAppend a (llAppend b c)
  | .nil, _, _ => rfl
  | .cons n ar cb tl, b, c => by rw [llAppend, llAppend, llAppend, llAppend_assoc tl b c]

/-- Replacing the arguments of the last link of a chain ending in a
known single link rewrites exactly that link. -/
theorem llSetLastArgs_append_single (a : SchemaList) : ∀ (c : LinkList) (n : String)
    (as0 : SchemaList) (cb : Callback),
    llSetLastArgs a (llAppend c (.cons n as0 cb .nil)) = llAppend c (.cons n a cb .nil)
  | .nil, _, _, _ => rfl
  | .cons n2 a2 cb2 tl, n, as0, cb => by
    have ih := llSetLastArgs_append_single a tl n as0 cb
    cases htl : llAppend tl (.cons n as0 cb .nil) with
    | nil => cases tl <;> simp [llAppend] at htl
    | cons n3 a3 cb3 tl3 =>
      rw [llAppend, htl]
      rw [show llSetLastArgs a (.cons n2 a2 cb2 (.cons n3 a3 cb3 tl3))
            = .cons n2 a2 cb2 (llSetLastArgs a (.cons n3 a3 cb3 tl3)) from rfl]
      rw [← htl, ih, llAppend]

/-- A JS split never produces an empty piece list. -/
theorem jsSplitChar_ne_nil (c : Char) : ∀ l, jsSplitChar c l ≠ []
  | [] => by simp [jsSplitChar]
  | x :: xs => by
    have := jsSplitChar_ne_nil c xs
    cases h : jsSplitChar c xs with
    | nil => exact absurd h this
    | cons h2 t2 =>
      simp only [jsSplitChar, h]
      split <;> simp

/-- Splitting after a leading separator prepends an empty piece. -/
theorem jsSplitChar_cons_sep (c : Char) (l : List Char) :
    jsSplitChar c (c :: l) = [] :: jsSplitChar c l := by
  cases h : jsSplitChar c l with
  | nil => exact absurd h (jsSplitChar_ne_nil c l)
  | cons h2 t2 => simp [jsSplitChar, h]

/-- Splitting distributes over an interior separator. -/
theorem jsSplitChar_append_sep (c : Char) : ∀ (xs ys : List Char),
    jsSplitChar c (xs ++ c :: ys) = jsSplitChar c xs ++ jsSplitChar c ys
  | [], ys => by
    rw [List.nil_append, jsSplitChar_cons_sep]
    rfl
  | x :: xs, ys => by
    have ih := jsSplitChar_append_sep c xs ys
    cases hx : jsSplitChar c xs with
    | nil => exact absurd hx (jsSplitChar_ne_nil c xs)
    | cons hh tt =>
      by_cases hc : x = c
      · subst hc
        rw [show (x :: xs) ++ x :: ys = x :: (xs ++ x :: ys) from rfl,
          jsSplitChar_cons_sep, jsSplitChar_cons_sep, ih]
        simp
      · have h1 : jsSplitChar c (x :: (xs ++ c :: ys))
            = (x :: (jsSplitChar c (xs ++ c :: ys)).headI) :: (jsSplitChar c (xs ++ c :: ys)).tail := by
          cases h2 : jsSplitChar c (xs ++ c :: ys) with
          | nil => exact absurd h2 (jsSplitChar_ne_nil c _)
          | cons a b => simp [jsSplitChar, h2, hc]
        rw [show (x :: xs) ++ c :: ys = x :: (xs ++ c :: ys) from rfl, h1, ih, hx]
        simp [jsSplitChar, hx, hc]

/-- A list free of the separator splits into itself alone. -/
theorem jsSplitChar_no_sep (c : Char) : ∀ (l : List Char), (∀ x ∈ l, x ≠ c) →
    jsSplitChar c l = [l]
  | [], _ => rfl
  | x :: xs, h => by
    have ih := jsSplitChar_no_sep c xs (fun y hy => h y (List.mem_cons_of_mem x hy))
    have hx : x ≠ c := h x (List.mem_cons_self x xs)
    simp [jsSplitChar, ih, hx]

/-- Joining undoes splitting. -/
theorem jsJoinChar_split (c : Char) : ∀ (l : List Char),
    jsJoinChar c (jsSplitChar c l) = l
  | [] => rfl
  | x :: xs => by
    have ih := jsJoinChar_split c xs
    cases hx : jsSplitChar c xs with
    | nil => exact absurd hx (jsSplitChar_ne_nil c xs)
    | cons hh tt =>
      by_cases hc : x = c
      · subst hc
        rw [jsSplitChar_cons_sep, hx]
        rw [hx] at ih
        show ([] : List Char) ++ x :: jsJoinChar x (hh :: tt) = x :: xs
        rw [List.nil_append, ih]
      · rw [hx] at ih
        simp only [jsSplitChar, hx, if_neg hc]
        cases tt with
        | nil =>
          simp only [jsJoinChar] at ih ⊢
          rw [ih]
        | cons q ts =>
          simp only [jsJoinChar] at ih ⊢
          rw [List.cons_append, ih]

/-- The regexp serialization is the identity on source and flags: the
printed form `'/' + source + '/' + flags` splits into a leading empty
piece, the pieces of the source and the flags (which, being letters
only, contain no slash); popping the flags, shifting the empty piece
and rejoining reconstructs the source exactly, even when it contains
(necessarily escaped) slashes. -/
theorem serializeRegexp_eq (src flags : String)
    (h : flags.toList.all (fun c => c != '/') = true) :
    serializeRegexp src flags = .regexp src flags := by
  have hflags : ∀ x ∈ flags.toList, x ≠ '/' := by
    intro x hx
    have := List.all_eq_true.mp h x hx
    simpa using this
  have hsplit : ("/" ++ src ++ "/" ++ flags).toList
      = '/' :: (src.toList ++ '/' :: flags.toList) := by
    simp [String.toList]
  have hparts : jsSplitChar '/' (("/" ++ src ++ "/" ++ flags).toList)
      = [] :: (jsSplitChar '/' src.toList ++ [flags.toList]) := by
    rw [hsplit, jsSplitChar_cons_sep, jsSplitChar_append_sep,
      jsSplitChar_no_sep '/' flags.toList hflags]
  unfold serializeRegexp jsSplitStr
  rw [hparts]
  have hjoin : jsJoinStr '/' ((jsSplitChar '/' src.toList).map String.mk) = src := by
    unfold jsJoinStr
    have hm : ((jsSplitChar '/' src.toList).map String.mk).map String.toList
        = jsSplitChar '/' src.toList := by
      rw [List.map_map]
      exact List.map_id'' (fun x => rfl) _
    rw [hm, jsJoinChar_split]
    rfl
  rw [show (List.map String.mk (([] : List Char) :: (jsSplitChar '/' src.toList ++ [flags.toList])))
      = ((String.mk [] :: List.map String.mk (jsSplitChar '/' src.toList)) ++ [String.mk flags.toList]) from by simp]
  rw [List.dropLast_concat, List.getLastD_concat, List.drop_one, List.tail_cons, hjoin]
  rfl

/-- Concatenation of field lists. -/
def sfAppend : SchemaFields → SchemaFields → SchemaFields
  | .nil, b => b
  | .cons k v tl, b => .cons k v (sfAppend tl b)

/-- Appending an empty field list is the identity. -/
theorem sfAppend_nil_right : ∀ (a : SchemaFields), sfAppend a .nil = a
  | .nil => rfl
  | .cons k v tl => by rw [sfAppend, sfAppend_nil_right tl]

/-- Field-list concatenation is associative. -/
theorem sfAppend_assoc : ∀ (a b c : SchemaFields),
    sfAppend (sfAppend a b) c = sfAppend a (sfAppend b c)
  | .nil, _, _ => rfl
  | .cons k v tl, b, c => by rw [sfAppend, sfAppend, sfAppend, sfAppend_assoc tl b c]

/-- Keys of a concatenation. -/
theorem sfKeys_append : ∀ (a b : SchemaFields),
    sfKeys (sfAppend a b) = sfKeys a ++ sfKeys b
  | .nil, _ => rfl
  | .cons k v tl, b => by rw [sfAppend, sfKeys, sfKeys, sfKeys_append tl b, List.cons_append]

/-- Assigning a fresh key appends the field at the end, as JS property
creation does. -/
theorem sfSet_notmem (k : String) (v : Schema) : ∀ (acc : SchemaFields),
    k ∉ sfKeys acc → sfSet acc k v = sfAppend acc (.cons k v .nil)
  | .nil, _ => rfl
  | .cons k2 v2 tl, h => by
    have hk : k2 ≠ k := fun he => h (by rw [sfKeys, he]; exact List.mem_cons_self k _)
    have htl : k ∉ sfKeys tl := fun hm => h (by rw [sfKeys]; exact List.mem_cons_of_mem k2 hm)
    rw [sfSet, sfAppend, if_neg (by simpa using hk), sfSet_notmem k v tl htl]

mutual
/-- Round trip of one well-formed schema node through the descriptor
codec: serialization succeeds and deserialization rebuilds the node
exactly. -/
theorem roundtrip_schema : ∀ (S : Schema), schemaWFb S = true →
    ∃ d, serializeSchema S = .ok d ∧ deserializeDesc d = .ok S
  | .lit .null, h => by rw [schemaWFb] at h; exact absurd h (by simp)
  | .lit (.str s), _ => ⟨.primitive (.str s), rfl, rfl⟩
  | .lit (.num q), _ => ⟨.primitive (.num q), rfl, rfl⟩
  | .lit (.bool b), _ => ⟨.primitive (.bool b), rfl, rfl⟩
  | .func f, h => by rw [schemaWFb] at h; exact absurd h (by simp)
  | .regexp src flags, h => by
    rw [schemaWFb] at h
    exact ⟨.regexp src flags, by rw [serializeSchema, serializeRegexp_eq src flags h], rfl⟩
  | .arrLit es, h => by
    rw [schemaWFb] at h
    obtain ⟨dl, hs, hd⟩ := roundtrip_slist es h
    exact ⟨.array dl, by simp [serializeSchema, hs, Except.map],
      by simp [deserializeDesc, hd, Except.map]⟩
  | .objMap fields, h => by
    rw [schemaWFb] at h
    obtain ⟨⟨⟨⟨hj, hsh⟩, hne⟩, hnd⟩, hwf⟩ :=
      (by simpa only [Bool.and_eq_true_iff] using h :
        ((((!hasToJSONHook fields) = true ∧ (!hasSerializeHook fields) = true)
          ∧ ((sfKeys fields).all (fun k => k != "")) = true)
          ∧ (decide (sfKeys fields).Nodup) = true)
          ∧ schemaFieldsWFb fields = true)
    obtain ⟨dl, hs, hd⟩ := roundtrip_members fields .nil hwf hne (of_decide_eq_true hnd)
      (fun k _ hk => by simp [sfKeys] at hk)
    have hj2 : hasToJSONHook fields = false := by simpa using hj
    have hsh2 : hasSerializeHook fields = false := by simpa using hsh
    refine ⟨.object dl, ?_, ?_⟩
    · rw [serializeSchema, if_neg (by simp [hj2]), if_neg (by simp [hsh2])]
      simp [hs, Except.map]
    · rw [deserializeDesc]
      rw [hd, sfAppend]
      rfl
  | .validator name opt chain, h => by
    rw [schemaWFb] at h
    obtain ⟨hshape, hargs⟩ := Bool.and_eq_true_iff.mp h
    cases hchk : chainCheckStart chain with
    | none => rw [hchk] at hshape; simp at hshape
    | some pr =>
      obtain ⟨nm, op⟩ := pr
      rw [hchk] at hshape
      obtain ⟨⟨hnm, hop⟩, hne⟩ := by
        simpa only [Bool.and_eq_true_iff] using hshape
      have hnm2 : name = nm := by simpa using hnm
      have hop2 : opt = op := by simpa using hop
      have hne2 : name ≠ "" := by simpa using hne
      obtain ⟨dl, hs, hd⟩ := roundtrip_chain_start chain nm op hargs hchk
      refine ⟨.validator name opt dl, ?_, ?_⟩
      · simp [serializeSchema, hs, Except.map]
      · rw [deserializeDesc, if_neg hne2, hd, hnm2, hop2]

/-- Round trip of a list of well-formed schema nodes. -/
theorem roundtrip_slist : ∀ (l : SchemaList), schemaListWFb l = true →
    ∃ dl, serializeList l = .ok dl ∧ deserializeList dl = .ok l
  | .nil, _ => ⟨.nil, rfl, rfl⟩
  | .cons s tl, h => by
    rw [schemaListWFb] at h
    obtain ⟨hs, htl⟩ := Bool.and_eq_true_iff.mp h
    obtain ⟨d, hsd, hdd⟩ := roundtrip_schema s hs
    obtain ⟨dl, hsl, hdl⟩ := roundtrip_slist tl htl
    exact ⟨.cons d dl, by simp [serializeList, hsd, hsl, Except.bind, bind],
      by simp [deserializeList, hdd, hdl, Except.bind, bind]⟩

/-- Round trip of object fields, generalized over the accumulator the
member rebuild loop carries: with nonempty, distinct keys that avoid
the accumulator, serialized fields deserialize to the accumulator
extended by the original fields in order. -/
theorem roundtrip_members : ∀ (fs : SchemaFields) (acc : SchemaFields),
    schemaFieldsWFb fs = true →
    ((sfKeys fs).all (fun k => k != "")) = true →
    (sfKeys fs).Nodup →
    (∀ k ∈ sfKeys fs, k ∉ sfKeys acc) →
    ∃ dl, serializeFields fs = .ok dl
      ∧ deserializeObjectMembers dl acc = .ok (sfAppend acc fs)
  | .nil, acc, _, _, _, _ =>
    ⟨.nil, rfl, by rw [deserializeObjectMembers, sfAppend_nil_right]⟩
  | .cons k v tl, acc, hwf, hne, hnd, hdisj => by
    rw [schemaFieldsWFb] at hwf
    obtain ⟨hv, htl⟩ := Bool.and_eq_true_iff.mp hwf
    rw [sfKeys] at hne hnd hdisj
    have hk : k ≠ "" := by simpa using (List.all_eq_true.mp hne k (List.mem_cons_self k _))
    have hne' : ((sfKeys tl).all (fun k2 => k2 != "")) = true := by
      apply List.all_eq_true.mpr
      intro x hx
      exact List.all_eq_true.mp hne x (List.mem_cons_of_mem k hx)
    have hknotin : k ∉ sfKeys tl := (List.nodup_cons.mp hnd).1
    have hnd' : (sfKeys tl).Nodup := (List.nodup_cons.mp hnd).2
    have hkacc : k ∉ sfKeys acc := hdisj k (List.mem_cons_self k _)
    obtain ⟨d, hsd, hdd⟩ := roundtrip_schema v hv
    have hdisj' : ∀ k2 ∈ sfKeys tl, k2 ∉ sfKeys (sfSet acc k v) := by
      intro k2 hk2
      rw [sfSet_notmem k v acc hkacc, sfKeys_append]
      intro hmem
      rcases List.mem_append.mp hmem with hmem2 | hmem2
      · exact hdisj k2 (List.mem_cons_of_mem k hk2) hmem2
      · rw [sfKeys, sfKeys] at hmem2
        simp at hmem2
        exact hknotin (hmem2 ▸ hk2)
    obtain ⟨dl, hsl, hdl⟩ := roundtrip_members tl (sfSet acc k v) htl hne' hnd' hdisj'
    refine ⟨.cons (.field k d) dl, ?_, ?_⟩
    · simp [serializeFields, hsd, hsl, Except.bind, bind]
    · rw [deserializeObjectMembers, if_neg hk]
      rw [show (do
          let v2 ← deserializeDesc d
          deserializeObjectMembers dl (sfSet acc k v2) : Except JSErr SchemaFields)
        = deserializeObjectMembers dl (sfSet acc k v) from by rw [hdd]; rfl]
      rw [hdl, sfSet_notmem k v acc hkacc, sfAppend_assoc]
      rfl


/-- Replay of the non-first links of a serialized chain from the
current validator object: under the structural chain check the replay
reconstructs the original links on top of the current chain. -/
theorem roundtrip_chain_from : ∀ (tl : LinkList) (cur : ValObj) (nm : String) (op : Bool),
    chainArgsWFb tl = true →
    chainCheckFrom (cur.name, cur.optional) tl = some (nm, op) →
    ∃ dl, serializeChain tl = .ok dl
      ∧ deserializeValidator dl (some cur) = .ok (.validator nm op (llAppend cur.chain tl))
  | .nil, cur, nm, op, _, hchk => by
    rw [chainCheckFrom] at hchk
    obtain ⟨h1, h2⟩ : cur.name = nm ∧ cur.optional = op := by
      have := Option.some.inj hchk
      exact ⟨congrArg Prod.fst this, congrArg Prod.snd this⟩
    exact ⟨.nil, rfl, by rw [llAppend_nil, ← h1, ← h2]; rfl⟩
  | .cons lname largs cb ttl, cur, nm, op, hwf, hchk => by
    rw [chainArgsWFb] at hwf
    obtain ⟨hargs, httl⟩ := Bool.and_eq_true_iff.mp hwf
    rw [chainCheckFrom] at hchk
    cases hlook : lookupRegistry lname with
    | none =>
      simp only [hlook] at hchk
      exact Option.noConfusion hchk
    | some e =>
      simp only [hlook] at hchk
      cases hsub : subEntry cur.name (lastSeg lname) with
      | none =>
        simp only [hsub] at hchk
        exact Option.noConfusion hchk
      | some e2 =>
        simp only [hsub] at hchk
        by_cases hcond : (lname != "" && (e.name == lname) && (cb == e.callback)
            && (e2 == e) && argCountOK e largs) = true
        case neg => rw [if_neg hcond] at hchk; simp at hchk
        rw [if_pos hcond] at hchk
        obtain ⟨⟨⟨⟨hb1, hb2⟩, hb3⟩, hb4⟩, hb5⟩ := by
          simpa only [Bool.and_eq_true_iff] using hcond
        have hlne : lname ≠ "" := by simpa using hb1
        have hename : e.name = lname := by simpa using hb2
        have hecb : cb = e.callback := by simpa using hb3
        have he2 : e2 = e := by simpa using hb4
        obtain ⟨dargs, hsargs, hdargs⟩ := roundtrip_slist largs hargs
        obtain ⟨dl, hsc, hdv⟩ := roundtrip_chain_from ttl
          ⟨e.name, e.optional || cur.optional,
            llAppend cur.chain (.cons e.name largs e.callback .nil), e.requiredArgs⟩
          nm op httl hchk
        have hfin : llAppend
            (llAppend cur.chain (.cons e.name largs e.callback .nil)) ttl
            = llAppend cur.chain (.cons lname largs cb ttl) := by
          rw [llAppend_assoc, hename, hecb]
          rfl
        rw [hfin] at hdv
        have hnav : subNavigate cur (lastSeg lname)
            = some ⟨e.name, e.optional || cur.optional,
                llAppend cur.chain (.cons e.name .nil e.callback .nil), e.requiredArgs⟩ := by
          rw [subNavigate, hsub, he2]
          rfl
        refine ⟨.cons lname dargs dl, ?_, ?_⟩
        · simp [serializeChain, hsargs, hsc, Except.bind, bind]
        · rw [deserializeValidator]
          simp only [if_neg hlne, hlook, hnav]
          cases largs with
          | nil =>
            have hdnil : dargs = .nil := (Except.ok.inj hsargs).symm
            subst hdnil
            exact hdv
          | cons a0 atl =>
            cases dargs with
            | nil =>
              exact absurd (Except.ok.inj hdargs) (by simp)
            | cons d0 dtl =>
              have hreq : ¬ (slLength (.cons a0 atl) < e.requiredArgs) := by
                have := of_decide_eq_true (by simpa [argCountOK] using hb5)
                omega
              simp only [hdargs, Except.bind, bind]
              simp only [invokeValidator, if_neg hreq, llSetLastArgs_append_single]
              exact hdv

/-- Replay of a whole serialized chain from an empty state: the first
link resolves directly through the registry, with or without
re-invocation. -/
theorem roundtrip_chain_start : ∀ (c : LinkList) (nm : String) (op : Bool),
    chainArgsWFb c = true →
    chainCheckStart c = some (nm, op) →
    ∃ dl, serializeChain c = .ok dl
      ∧ deserializeValidator dl none = .ok (.validator nm op c)
  | .nil, nm, op, _, hchk => by rw [chainCheckStart] at hchk; simp at hchk
  | .cons lname largs cb ttl, nm, op, hwf, hchk => by
    rw [chainArgsWFb] at hwf
    obtain ⟨hargs, httl⟩ := Bool.and_eq_true_iff.mp hwf
    rw [chainCheckStart] at hchk
    cases hlook : lookupRegistry lname with
    | none =>
      simp only [hlook] at hchk
      exact Option.noConfusion hchk
    | some e =>
      simp only [hlook] at hchk
      by_cases hcond : (lname != "" && (e.name == lname) && (cb == e.callback)
          && argCountOK e largs) = true
      case neg => rw [if_neg hcond] at hchk; simp at hchk
      rw [if_pos hcond] at hchk
      obtain ⟨⟨⟨hb1, hb2⟩, hb3⟩, hb5⟩ := by
        simpa only [Bool.and_eq_true_iff] using hcond
      have hlne : lname ≠ "" := by simpa using hb1
      have hename : e.name = lname := by simpa using hb2
      have hecb : cb = e.callback := by simpa using hb3
      obtain ⟨dargs, hsargs, hdargs⟩ := roundtrip_slist largs hargs
      obtain ⟨dl, hsc, hdv⟩ := roundtrip_chain_from ttl
        ⟨e.name, e.optional, .cons e.name largs e.callback .nil, e.requiredArgs⟩
        nm op httl hchk
      have hfin : llAppend (.cons e.name largs e.callback .nil) ttl
          = .cons lname largs cb ttl := by
        rw [hename, hecb]
        rfl
      rw [show llAppend (ValObj.chain ⟨e.name, e.optional,
          .cons e.name largs e.callback .nil, e.requiredArgs⟩) ttl
          = llAppend (.cons e.name largs e.callback .nil) ttl from rfl, hfin] at hdv
      refine ⟨.cons lname dargs dl, ?_, ?_⟩
      · simp [serializeChain, hsargs, hsc, Except.bind, bind]
      · rw [deserializeValidator]
        simp only [if_neg hlne, hlook]
        cases largs with
        | nil =>
          have hdnil : dargs = .nil := (Except.ok.inj hsargs).symm
          subst hdnil
          exact hdv
        | cons a0 atl =>
          cases dargs with
          | nil =>
            exact absurd (Except.ok.inj hdargs) (by simp)
          | cons d0 dtl =>
            have hreq : ¬ (slLength (.cons a0 atl) < e.requiredArgs) := by
              have := of_decide_eq_true (by simpa [argCountOK] using hb5)
              omega
            simp only [hdargs, Except.bind, bind]
            simp only [invokeValidator, registryObj, if_neg hreq]
            exact hdv
end

/-- The concrete well-formed schema used to witness the round trip:
an object map binding a field to the argument-bound refinement
`shapeOf.string.ofSize(3, 25)` and another to an array literal. -/
def c1WitnessSchema : Schema :=
  .objMap (.cons "first_name" stringSize325S
    (.cons "tags" (.arrLit (.cons (.lit (.str "a")) .nil)) .nil))

/-- C1 (amended): for every well-formed schema — a literal other than
`null`, a regular expression whose source avoids `/`, an array literal,
an object map whose keys are distinct and non-empty and which carries
neither a truthy `toJSON` field nor a function-valued `serialize` field
(validators are functions in JS, so a validator-valued `serialize`
field also triggers the source's custom-serializer hook and is
excluded), or a registered validator chain (including argument-bound
refinements such as `string.size(3,25)`) whose links replay through the
registry with enough arguments — `deserialize(serialize(S))` succeeds
and returns a schema syntactically equal to `S`, hence one that accepts
exactly the same values and produces the same results when evaluated on
any value, under any options, at any fuel.  The original claim also
covered the `null` literal, on which serialization raises instead (see
the counterexample). -/
theorem c1_roundtrip_for_wellformed_schemas (S : Schema) (h : schemaWFb S = true) :
    ∃ env T, shapeOf_serialize S = .ok env ∧ shapeOf_deserialize env = .ok T
      ∧ T = S
      ∧ ∀ rt fuel opts v, shouldBeRun rt fuel opts v T = shouldBeRun rt fuel opts v S := by
  obtain ⟨d, hs, hd⟩ := roundtrip_schema S h
  refine ⟨⟨shapeOf_versionStr, shapeOf_compatibleSchemaVersion, d⟩, S, ?_, ?_, rfl,
    fun _ _ _ _ => rfl⟩
  · simp [shapeOf_serialize, hs, Except.bind, bind]
  · have hgate : isCompatibileVersion "0.0.8" "0.0.8" = .ok true := rfl
    simp [shapeOf_deserialize, hgate, hd, Except.bind, bind, shapeOf_versionStr,
      shapeOf_compatibleSchemaVersion]

/-- C1 counterexample to the unrestricted claim: `null` is a literal
schema (and a meaningful one: it matches exactly the value `null`), yet
`serialize` raises a `TypeError` on it, because `_serialize` reads the
`toJSON` property off the `null` value before any other dispatch.  The
round trip therefore does not even produce a schema for `S = null`. -/
theorem c1_serialize_null_raises :
    shapeOf_serialize (.lit .null) = .error (.typeError "Cannot read properties of null") := rfl

/-- C1 witness: the round trip at the concrete schema
`\x7b first_name: shapeOf.string.ofSize(3,25), tags: ["a"] \x7d`. -/
theorem c1_roundtrip_witness :
    schemaWFb c1WitnessSchema = true ∧
    (∃ env T, shapeOf_serialize c1WitnessSchema = .ok env
      ∧ shapeOf_deserialize env = .ok T
      ∧ T = c1WitnessSchema
      ∧ ∀ rt fuel opts v,
          shouldBeRun rt fuel opts v T = shouldBeRun rt fuel opts v c1WitnessSchema) :=
  ⟨rfl, c1_roundtrip_for_wellformed_schemas c1WitnessSchema rfl⟩
